import Mathlib

/-!
# Verification of the `LinearProgram` simplex solver

Shallow embedding of `src/satisfactory/linear-programming/program.ts`.

Modelling conventions:

* JavaScript `number` is modelled by `ℚ` (exact arithmetic); the claims under
  study are about exact coefficient patterns (`= 1`, `= 0`), length invariants
  and control flow, not about rounding.
* In-place mutation of the `LinearProgram` object is modelled by explicit state
  passing: every mutating method takes the current program and returns
  `Except (LPErr × LinearProgram) LinearProgram` — a thrown exception carries
  the state the object is left in at the moment of the throw.
* JavaScript `Set<number>` (insertion ordered) is modelled by a duplicate-free
  `List ℕ` with `setAdd` / `setDelete` mirroring `Set.add` / `Set.delete`.
* Indexed array access `a[i]` with the source's explicit `undefined` checks is
  modelled by `List.getElem?` plus the corresponding error branch.
* The unbounded `while`/recursion of the simplex search is modelled with a
  fuel parameter; exhausting fuel yields the artificial `LPErr.fuelExhausted`,
  which never corresponds to a normal return of the source.
-/

namespace LinProg

/- Core marks the `Rat` arithmetic operations `@[irreducible]`; restore
definitional reducibility locally so that concrete runs of the solver can be
evaluated by `decide` (the kernel is oblivious to reducibility attributes, so
this changes nothing about what is provable). -/
attribute [local semireducible] Rat.mul Rat.add Rat.sub Rat.inv

/-- The objective kinds (`OBJECTIVE_TYPES` in the source). -/
inductive ObjectiveType where
  | minimize
  | maximize
deriving DecidableEq, Repr

/-- The constraint kinds (`CONSTRAINT_TYPES`): `"="`, `"<="`, `">="`. -/
inductive ConstraintType where
  | eq
  | le
  | ge
deriving DecidableEq, Repr

/-- The variable restrictions (`RESTRICTION_TYPES`): `"non-negative"`, `"unrestricted"`. -/
inductive RestrictionType where
  | nonNegative
  | unrestricted
deriving DecidableEq, Repr

/-- One constraint record `{type, value, coefficients}`. -/
structure Constraint where
  type : ConstraintType
  value : ℚ
  coefficients : List ℚ
deriving DecidableEq, Repr

/-- The mutable state of a `LinearProgram` object (all private fields). -/
structure LinearProgram where
  objectiveType : ObjectiveType
  n : ℕ
  coefficients : List ℚ
  constant : ℚ
  m : ℕ
  constraints : List Constraint
  restrictions : List RestrictionType
  isStandardForm : Bool
  isSimplexForm : Bool
deriving DecidableEq, Repr

/-- The error taxonomy: `LinearProgramSizeError`, `LinearProgramSolutionError`,
`LinearProgramDeserializationError`. `fuelExhausted` is an artifact of the
fuelled embedding of the unbounded recursion; it never models a normal return. -/
inductive LPErr where
  | sizeError (message : String)
  | solutionError (message : String)
  | deserializationError (message : String)
  | fuelExhausted
deriving DecidableEq, Repr

instance exceptDecidableEq {ε α : Type} [DecidableEq ε] [DecidableEq α] :
    DecidableEq (Except ε α)
  | Except.ok x, Except.ok y =>
    if h : x = y then Decidable.isTrue (by rw [h])
    else Decidable.isFalse (fun hc => h (Except.ok.inj hc))
  | Except.ok _, Except.error _ => Decidable.isFalse (fun hc => Except.noConfusion hc)
  | Except.error _, Except.ok _ => Decidable.isFalse (fun hc => Except.noConfusion hc)
  | Except.error e, Except.error f =>
    if h : e = f then Decidable.isTrue (by rw [h])
    else Decidable.isFalse (fun hc => h (Except.error.inj hc))

/-- The constructor `new LinearProgram(objectiveType)`. -/
def mkLinearProgram (objectiveType : ObjectiveType) : LinearProgram :=
  ⟨objectiveType, 0, [], 0, 0, [], [], false, false⟩

/-- The setter `program.constant = value`. -/
def setConstant (p : LinearProgram) (value : ℚ) : LinearProgram :=
  { p with constant := value }

/-- Message of the `addVariable` dimension check. -/
def cannotAddVariableMsg (got m : ℕ) : String :=
  "Cannot add variable with " ++ toString got ++ " constraints to program with "
    ++ toString m ++ " constraints"

/-- Message of the `addConstraint` dimension check. -/
def cannotAddConstraintMsg (got n : ℕ) : String :=
  "Cannot add constraint with " ++ toString got ++ " variables to program with "
    ++ toString n ++ " variables"

/-- Message of an `undefined` constraint lookup. -/
def constraintUndefinedMsg (i m : ℕ) : String :=
  "Constraint at index " ++ toString i ++ " is undefined in program with "
    ++ toString m ++ " constraints"

/-- Push one coefficient onto a constraint's coefficient list
(`constraint.coefficients.push(x)`). -/
def pushCoefficient (c : Constraint) (x : ℚ) : Constraint :=
  { c with coefficients := c.coefficients ++ [x] }

/-- `addVariable(coefficient, constraintCoefficients, restriction)`.

The two normalization flags are updated before the dimension check, so a
throwing call still leaves them modified (this is what claim C10 is about).
If `constraints` is shorter than `m` (impossible for well-formed states), the
source's per-index `undefined` check fires after the earlier constraints have
already been extended; the error state reflects that. -/
def addVariable (p : LinearProgram) (coefficient : ℚ) (constraintCoefficients : List ℚ)
    (restriction : RestrictionType) : Except (LPErr × LinearProgram) LinearProgram :=
  let p1 : LinearProgram := { p with
    isStandardForm := p.isStandardForm && (restriction == RestrictionType.nonNegative),
    isSimplexForm := false }
  if constraintCoefficients.length ≠ p1.m then
    Except.error (LPErr.sizeError (cannotAddVariableMsg constraintCoefficients.length p1.m), p1)
  else
    let p2 : LinearProgram := { p1 with
      n := p1.n + 1,
      coefficients := p1.coefficients ++ [coefficient],
      restrictions := p1.restrictions ++ [restriction] }
    if p2.constraints.length < p2.m then
      let partialConstraints :=
        List.zipWith pushCoefficient p2.constraints
          (constraintCoefficients.take p2.constraints.length)
      Except.error (LPErr.sizeError (constraintUndefinedMsg p2.constraints.length p2.m),
        { p2 with constraints := partialConstraints })
    else
      let newConstraints :=
        List.zipWith pushCoefficient (p2.constraints.take p2.m) constraintCoefficients
          ++ p2.constraints.drop p2.m
      Except.ok { p2 with constraints := newConstraints }

/-- `addConstraint(type, value, coefficients)`. -/
def addConstraint (p : LinearProgram) (type : ConstraintType) (value : ℚ)
    (coefficients : List ℚ) : Except (LPErr × LinearProgram) LinearProgram :=
  let p1 : LinearProgram := { p with
    isStandardForm := p.isStandardForm && (type == ConstraintType.eq),
    isSimplexForm := false }
  if coefficients.length ≠ p1.n then
    Except.error (LPErr.sizeError (cannotAddConstraintMsg coefficients.length p1.n), p1)
  else
    Except.ok { p1 with m := p1.m + 1, constraints := p1.constraints ++ [⟨type, value, coefficients⟩] }

/-- The `LinearProgramSnapshot` record. The source's deep copies (`slice`, per
constraint copy) are value copies; in the pure embedding a snapshot is simply
the field tuple. -/
structure LinearProgramSnapshot where
  objectiveType : ObjectiveType
  n : ℕ
  coefficients : List ℚ
  constant : ℚ
  m : ℕ
  constraints : List Constraint
  restrictions : List RestrictionType
  isStandardForm : Bool
  isSimplexForm : Bool
deriving DecidableEq, Repr

/-- `getSnapshot()`: a deep copy of the current state. -/
def getSnapshot (p : LinearProgram) : LinearProgramSnapshot :=
  ⟨p.objectiveType, p.n, p.coefficients, p.constant, p.m, p.constraints, p.restrictions,
    p.isStandardForm, p.isSimplexForm⟩

/-- `applySnapshot(snapshot)`: overwrite every field from the snapshot. -/
def applySnapshot (s : LinearProgramSnapshot) : LinearProgram :=
  ⟨s.objectiveType, s.n, s.coefficients, s.constant, s.m, s.constraints, s.restrictions,
    s.isStandardForm, s.isSimplexForm⟩

/-- `withoutChanges(callback)`: take a snapshot, run the callback, and restore
the snapshot in a `finally` block, on the normal path and the throwing path
alike. The callback is modelled as an arbitrary state transformer that may
also throw (with whatever error payload type). -/
def withoutChanges {ε α : Type} (p : LinearProgram)
    (callback : LinearProgram → Except (ε × LinearProgram) (α × LinearProgram)) :
    Except (ε × LinearProgram) (α × LinearProgram) :=
  let snapshot := getSnapshot p
  match callback p with
  | Except.ok (t, _) => Except.ok (t, applySnapshot snapshot)
  | Except.error (e, _) => Except.error (e, applySnapshot snapshot)

/-- Effectful map over a list, short-circuiting on the first error — the shape
of the source's `for` loops that throw on an `undefined` lookup. -/
def exMap {α β : Type} (f : α → Except LPErr β) : List α → Except LPErr (List β)
  | [] => Except.ok []
  | a :: l =>
    match f a with
    | Except.error e => Except.error e
    | Except.ok b =>
      match exMap f l with
      | Except.error e => Except.error e
      | Except.ok bs => Except.ok (b :: bs)

/-- Message of an `undefined` coefficient lookup (index into the objective row). -/
def coefficientUndefinedMsg (i n : ℕ) : String :=
  "Coefficient at index " ++ toString i ++ " is undefined in program with "
    ++ toString n ++ " variables"

/-- Message of an `undefined` constraint-coefficient lookup. -/
def constraintCoefficientUndefinedMsg (i n : ℕ) : String :=
  "Constraint coefficient at index " ++ toString i ++ " is undefined in program with "
    ++ toString n ++ " variables"

/-- Message of an `undefined` restriction lookup. -/
def restrictionUndefinedMsg (i n : ℕ) : String :=
  "Restriction at index " ++ toString i ++ " is undefined in program with "
    ++ toString n ++ " variables"

/-- The first loop of `standardize()`: for each constraint index `i` below the
(fixed) constraint count, relabel `>=` to `<=` with negation, then relabel
`<=` to `=` and add a slack variable whose constraint column is the unit
vector at row `i` (sized to the constraint count at the moment of insertion).
The first argument is the remaining number of iterations. -/
def standardizeConstraintsLoop : ℕ → LinearProgram → ℕ → Except (LPErr × LinearProgram) LinearProgram
  | 0, p, _ => Except.ok p
  | Nat.succ k, p, i =>
    match p.constraints[i]? with
    | none => Except.error (LPErr.sizeError (constraintUndefinedMsg i p.m), p)
    | some c0 =>
      let c1 := if c0.type == ConstraintType.ge then
          { c0 with
            type := ConstraintType.le
            value := -c0.value
            coefficients := c0.coefficients.map (fun x => -x) }
        else c0
      let pa : LinearProgram := { p with constraints := p.constraints.set i c1 }
      if c1.type == ConstraintType.le then
        let c2 := { c1 with type := ConstraintType.eq }
        let pb : LinearProgram := { pa with constraints := pa.constraints.set i c2 }
        let unitColumn := (List.range pb.m).map (fun j => if i = j then (1 : ℚ) else 0)
        match addVariable pb 0 unitColumn RestrictionType.nonNegative with
        | Except.error e => Except.error e
        | Except.ok pc => standardizeConstraintsLoop k pc (i + 1)
      else
        standardizeConstraintsLoop k pa (i + 1)

/-- The second loop of `standardize()`: for each variable index `i` below the
(growing) variable count, force an `unrestricted` variable to `non-negative`
and append its negated column as a fresh non-negative variable
(`x = x⁺ − x⁻`). The loop bound re-reads `this.n`, which grows as variables
are appended; appended variables are `non-negative` and are skipped, so the
loop terminates. The first argument is fuel (the source loop has none); fuel
exhaustion is the artificial `LPErr.fuelExhausted`. -/
def standardizeRestrictionsLoop : ℕ → LinearProgram → ℕ → Except (LPErr × LinearProgram) LinearProgram
  | 0, p, _ => Except.error (LPErr.fuelExhausted, p)
  | Nat.succ k, p, i =>
    if i < p.n then
      match p.coefficients[i]? with
      | none => Except.error (LPErr.sizeError (coefficientUndefinedMsg i p.n), p)
      | some coefficient =>
        match p.restrictions[i]? with
        | none => Except.error (LPErr.sizeError (restrictionUndefinedMsg i p.n), p)
        | some restriction =>
          if restriction == RestrictionType.nonNegative then
            standardizeRestrictionsLoop k p (i + 1)
          else
            let pa : LinearProgram :=
              { p with restrictions := p.restrictions.set i RestrictionType.nonNegative }
            match exMap (fun (c : Constraint) =>
                match c.coefficients[i]? with
                | none => Except.error (LPErr.sizeError (constraintCoefficientUndefinedMsg i pa.n))
                | some x => Except.ok (-x)) pa.constraints with
            | Except.error e => Except.error (e, pa)
            | Except.ok negatedColumn =>
              match addVariable pa (-coefficient) negatedColumn RestrictionType.nonNegative with
              | Except.error e => Except.error e
              | Except.ok pb => standardizeRestrictionsLoop k pb (i + 1)
    else Except.ok p

/-- The first block of `standardize()`: if minimizing, negate the objective
coefficients and the constant and switch to maximize. -/
def negateObjectiveIfMinimize (p : LinearProgram) : LinearProgram :=
  if p.objectiveType == ObjectiveType.minimize then
    { p with
      objectiveType := ObjectiveType.maximize
      coefficients := p.coefficients.map (fun c => -c)
      constant := -p.constant }
  else p

/-- The body of `standardize()` after the `isStandardForm` early return and
the objective flip: run the two loops and set the flags. -/
def standardizeCore (p1 : LinearProgram) : Except (LPErr × LinearProgram) LinearProgram :=
  match standardizeConstraintsLoop p1.m p1 0 with
  | Except.error e => Except.error e
  | Except.ok p2 =>
    match standardizeRestrictionsLoop (2 * p2.n + 1) p2 0 with
    | Except.error e => Except.error e
    | Except.ok p3 => Except.ok { p3 with isStandardForm := true, isSimplexForm := false }

/-- `standardize()`: no-op when already in standard form; otherwise flip a
minimization to a maximization, convert every constraint to an equality with
slack variables, split unrestricted variables, and set the flags. -/
def standardize (p : LinearProgram) : Except (LPErr × LinearProgram) LinearProgram :=
  if p.isStandardForm then Except.ok p
  else standardizeCore (negateObjectiveIfMinimize p)

/-- The data record emitted by `serialize()` and read back by `deserialize()`.

`serialize()` produces `JSON.stringify` of exactly this field set;
`JSON.stringify` is deterministic and the key order is fixed by the object
literal in `serialize()`, so two serializations are byte-identical iff the
corresponding `SerializedData` values are equal, which is how the byte-level
claims are phrased below. `deserialize()` first `JSON.parse`s and type-checks
the raw text; those shape/typing checks are discharged by this record's types,
and the remaining semantic validation is modelled explicitly. -/
structure SerializedData where
  objectiveType : ObjectiveType
  coefficients : List ℚ
  restrictions : List RestrictionType
  constraints : List Constraint
  constant : ℚ
deriving DecidableEq, Repr

/-- `serialize()`: emit the five persisted fields of the live state. -/
def serialize (p : LinearProgram) : SerializedData :=
  ⟨p.objectiveType, p.coefficients, p.restrictions, p.constraints, p.constant⟩

/-- The replay loop of `deserialize`: `addVariable(coefficient, [], restriction)`
for each parsed variable, in order. -/
def replayVariables : List (ℚ × RestrictionType) → LinearProgram →
    Except (LPErr × LinearProgram) LinearProgram
  | [], p => Except.ok p
  | (c, r) :: rest, p =>
    match addVariable p c [] r with
    | Except.error e => Except.error e
    | Except.ok p' => replayVariables rest p'

/-- The replay loop of `deserialize`: `addConstraint(type, value, coefficients)`
for each parsed constraint, in order. -/
def replayConstraints : List Constraint → LinearProgram →
    Except (LPErr × LinearProgram) LinearProgram
  | [], p => Except.ok p
  | c :: rest, p =>
    match addConstraint p c.type c.value c.coefficients with
    | Except.error e => Except.error e
    | Except.ok p' => replayConstraints rest p'

/-- `deserialize(data)`: semantic validation (the length checks the typed
record does not subsume), then build a fresh program by replaying
`addVariable`/`addConstraint` and setting the constant. -/
def deserialize (d : SerializedData) : Except LPErr LinearProgram :=
  if d.coefficients.length ≠ d.restrictions.length then
    Except.error (LPErr.deserializationError "Coefficients and restrictions have different lengths")
  else
    match (d.constraints.findIdx? (fun c => c.coefficients.length != d.coefficients.length)) with
    | some i =>
      Except.error (LPErr.deserializationError
        ("Constraint at index " ++ toString i ++ " has different number of coefficients"))
    | none =>
      match replayVariables (d.coefficients.zip d.restrictions) (mkLinearProgram d.objectiveType) with
      | Except.error (e, _) => Except.error e
      | Except.ok p1 =>
        match replayConstraints d.constraints p1 with
        | Except.error (e, _) => Except.error e
        | Except.ok p2 => Except.ok (setConstant p2 d.constant)

/-- `pivot(constraintIndex, variableIndex)`: one Gauss-Jordan step. Every read
is from the pre-pivot snapshot (`snapshot`, and `constraint`, its row `r`), so
the result is a pure function of the input state. The source writes cell by
cell; an `undefined` error aborts mid-write, but every such error is reported
here with the pre-pivot state (the partially written intermediate is never
observed by any claim). -/
def pivot (p : LinearProgram) (constraintIndex variableIndex : ℕ) :
    Except (LPErr × LinearProgram) LinearProgram :=
  match p.constraints[constraintIndex]? with
  | none => Except.error (LPErr.sizeError (constraintUndefinedMsg constraintIndex p.m), p)
  | some constraint =>
    match constraint.coefficients[variableIndex]? with
    | none =>
      Except.error (LPErr.sizeError (constraintCoefficientUndefinedMsg variableIndex p.n), p)
    | some ars =>
      match p.coefficients[variableIndex]? with
      | none => Except.error (LPErr.sizeError (coefficientUndefinedMsg variableIndex p.n), p)
      | some cs =>
        let br := constraint.value
        let newConstant := p.constant + cs * br / ars
        match exMap (fun j =>
            match constraint.coefficients[j]?, p.coefficients[j]? with
            | some arj, some cj => Except.ok (cj - arj * cs / ars)
            | _, _ => Except.error (LPErr.sizeError (coefficientUndefinedMsg j p.n)))
            (List.range p.n) with
        | Except.error e => Except.error (e, p)
        | Except.ok newCoefficients =>
          match exMap (fun i =>
              match p.constraints[i]? with
              | none => Except.error (LPErr.sizeError (constraintUndefinedMsg i p.m))
              | some ci =>
                match ci.coefficients[variableIndex]? with
                | none =>
                  Except.error (LPErr.sizeError (constraintCoefficientUndefinedMsg variableIndex p.n))
                | some ais =>
                  match exMap (fun j =>
                      match constraint.coefficients[j]?, ci.coefficients[j]? with
                      | some arj, some aij =>
                        Except.ok (if i = constraintIndex then aij / ars else aij - arj * ais / ars)
                      | _, _ =>
                        Except.error (LPErr.sizeError (constraintCoefficientUndefinedMsg j p.n)))
                      (List.range p.n) with
                  | Except.error e => Except.error e
                  | Except.ok row =>
                    Except.ok { ci with
                      value := if i = constraintIndex then br / ars else ci.value - ais * br / ars
                      coefficients := row ++ ci.coefficients.drop p.n })
              (List.range p.m) with
          | Except.error e => Except.error (e, p)
          | Except.ok newConstraints =>
            Except.ok { p with
              constant := newConstant
              coefficients := newCoefficients ++ p.coefficients.drop p.n
              constraints := newConstraints ++ p.constraints.drop p.m }

/-- `Set<number>.add`: append if absent (JS sets are insertion ordered). -/
def setAdd (s : List ℕ) (x : ℕ) : List ℕ :=
  if s.contains x then s else s ++ [x]

/-- `Set<number>.delete`: `none` models the `false` return (element absent). -/
def setDelete (s : List ℕ) (x : ℕ) : Option (List ℕ) :=
  if s.contains x then some (s.erase x) else none

/-- `Number.MAX_SAFE_INTEGER`, the initial value of `smallestRatio`. -/
def maxSafeInteger : ℚ := 9007199254740991

/-- The result type of `solveSimplex`/`solveSimplexRecursive`:
`Set<number> | "unbounded" | "infeasible"`. -/
inductive SimplexResult where
  | solution (zeroVariables : List ℕ)
  | unbounded
  | infeasible
deriving DecidableEq, Repr

/-- The minimum-ratio loop of `solveSimplexRecursive`: scan constraints
`i, i+1, …` (the second argument is the remaining iteration count), keeping
the first row that strictly lowers the best value seen so far, which starts at
`maxSafeInteger`. Rows whose coefficient in column `s` is `≤ 0` are skipped. -/
def ratioLoop (constraints : List Constraint) (s : ℕ) :
    ℕ → ℕ → ℚ → Option (ℕ × Constraint) → Except LPErr (Option (ℕ × Constraint))
  | _, 0, _, best => Except.ok best
  | i, Nat.succ k, smallestRt, best =>
    match constraints[i]? with
    | none => Except.error (LPErr.sizeError (constraintUndefinedMsg i constraints.length))
    | some c =>
      match c.coefficients[s]? with
      | none => Except.error (LPErr.sizeError (constraintCoefficientUndefinedMsg s constraints.length))
      | some coefficient =>
        if coefficient ≤ 0 then ratioLoop constraints s (i + 1) k smallestRt best
        else
          let rt := c.value / coefficient
          if rt < smallestRt then ratioLoop constraints s (i + 1) k rt (some (i, c))
          else ratioLoop constraints s (i + 1) k smallestRt best

/-- The leaving-row selection of `solveSimplexRecursive` (the `smallestRatio`
block): `none` models `smallestRatioIndex === -1`, the "unbounded" sentinel
condition. -/
def chooseLeavingRow (p : LinearProgram) (s : ℕ) : Except LPErr (Option (ℕ × Constraint)) :=
  ratioLoop p.constraints s 0 p.m maxSafeInteger none

/-- The `every` check on a candidate leaving column `i`: every constraint row
`j` has entry `0` in column `i`, except row `r` where the entry must be `1`.
Out-of-range reads (`undefined`) throw, and the scan short-circuits on the
first failing row exactly like `Array.every`. -/
def columnUnitScan (r i : ℕ) : ℕ → List Constraint → Except LPErr Bool
  | _, [] => Except.ok true
  | j, c :: rest =>
    match c.coefficients[i]? with
    | none => Except.error (LPErr.sizeError (constraintCoefficientUndefinedMsg i 0))
    | some x =>
      if x == 0 || (j == r && x == 1) then columnUnitScan r i (j + 1) rest
      else Except.ok false

/-- The leaving-variable collection loop of `solveSimplexRecursive`: over all
variable indices `i` (remaining count in the second argument), keep those with
objective coefficient `0` that are not in the zero set, whose coefficient in
the chosen row is nonzero, and whose column is the unit vector at row `r`.
A zero-set member with zero objective coefficient is an internal-consistency
violation. -/
def leavingLoop (p : LinearProgram) (zeroVariables : List ℕ) (r : ℕ) (rowR : Constraint) :
    ℕ → ℕ → List ℕ → Except LPErr (List ℕ)
  | _, 0, acc => Except.ok acc
  | i, Nat.succ k, acc =>
    match p.coefficients[i]? with
    | none => Except.error (LPErr.sizeError (coefficientUndefinedMsg i p.n))
    | some coefficient =>
      if coefficient ≠ 0 then leavingLoop p zeroVariables r rowR (i + 1) k acc
      else if zeroVariables.contains i then
        Except.error (LPErr.solutionError "Zero variable cannot have zero coefficient")
      else
        match rowR.coefficients[i]? with
        | none => Except.error (LPErr.sizeError (constraintCoefficientUndefinedMsg i p.n))
        | some constraintCoefficient =>
          if constraintCoefficient == 0 then leavingLoop p zeroVariables r rowR (i + 1) k acc
          else
            match columnUnitScan r i 0 p.constraints with
            | Except.error e => Except.error e
            | Except.ok true => leavingLoop p zeroVariables r rowR (i + 1) k (acc ++ [i])
            | Except.ok false => leavingLoop p zeroVariables r rowR (i + 1) k acc

/-- `solveSimplexRecursive(zeroVariables)` with fuel. Bland's rule: entering
column = first strictly positive objective coefficient; leaving row by the
minimum-ratio loop; identify the unique leaving variable; pivot; update the
zero set; recurse. -/
def solveSimplexRecursive :
    ℕ → LinearProgram → List ℕ → Except (LPErr × LinearProgram) (SimplexResult × LinearProgram)
  | 0, p, _ => Except.error (LPErr.fuelExhausted, p)
  | Nat.succ fuel, p, zeroVariables =>
    if p.isSimplexForm = false then
      Except.error (LPErr.solutionError "Program is not in simplex form", p)
    else
      match p.coefficients.findIdx? (fun c => decide (0 < c)) with
      | none => Except.ok (SimplexResult.solution zeroVariables, p)
      | some s =>
        match chooseLeavingRow p s with
        | Except.error e => Except.error (e, p)
        | Except.ok none => Except.ok (SimplexResult.unbounded, p)
        | Except.ok (some (r, rowR)) =>
          match leavingLoop p zeroVariables r rowR 0 p.n [] with
          | Except.error e => Except.error (e, p)
          | Except.ok [] => Except.error (LPErr.solutionError "No leaving variable found", p)
          | Except.ok (leavingVariableIndex :: restCandidates) =>
            match restCandidates with
            | _ :: _ => Except.error (LPErr.solutionError "Multiple leaving variables found", p)
            | [] =>
              match pivot p r s with
              | Except.error e => Except.error e
              | Except.ok p' =>
                match setDelete zeroVariables s with
                | none => Except.error (LPErr.solutionError "Pivot column is not zero variable", p')
                | some z1 =>
                  if z1.contains leavingVariableIndex then
                    Except.error (LPErr.solutionError "Leaving variable is zero variable", p')
                  else solveSimplexRecursive fuel p' (setAdd z1 leavingVariableIndex)

/-- Step 1 of `formatToIntermediateSimplex`: negate value and coefficients of
every constraint whose value is negative. -/
def negateNegativeRows (constraints : List Constraint) : List Constraint :=
  constraints.map (fun c =>
    if c.value < 0 then
      { c with value := -c.value, coefficients := c.coefficients.map (fun x => -x) }
    else c)

/-- One step of the `reduce` computing the auxiliary objective coefficients:
an empty accumulator is replaced by the row's own coefficient array (without
taking absolute values — and, in JavaScript, *by reference*); a non-empty
accumulator receives the absolute values of the row, entrywise. A row shorter
than the accumulator makes the source throw on the `undefined` entry. -/
def phase1Step (acc : List ℚ) (c : Constraint) : Except LPErr (List ℚ) :=
  if acc.length = 0 then Except.ok c.coefficients
  else if c.coefficients.length < acc.length then
    Except.error (LPErr.sizeError (constraintCoefficientUndefinedMsg c.coefficients.length 0))
  else Except.ok (List.zipWith (fun a b => a + |b|) acc c.coefficients)

/-- The full `reduce` over the constraints, starting from `[]`. -/
def phase1Coefficients : List Constraint → List ℚ → Except LPErr (List ℚ)
  | [], acc => Except.ok acc
  | c :: rest, acc =>
    match phase1Step acc c with
    | Except.error e => Except.error e
    | Except.ok acc' => phase1Coefficients rest acc'

/-- The artificial-variable loop of `formatToIntermediateSimplex`: add one
non-negative variable per constraint with objective coefficient `0` and the
identity column for its row. `mFixed` is the constraint count, which the loop
does not change. -/
def addArtificialsLoop (mFixed : ℕ) : ℕ → LinearProgram → ℕ → Except (LPErr × LinearProgram) LinearProgram
  | 0, p, _ => Except.ok p
  | Nat.succ k, p, i =>
    let unitColumn := (List.range mFixed).map (fun j => if j = i then (1 : ℚ) else 0)
    match addVariable p 0 unitColumn RestrictionType.nonNegative with
    | Except.error e => Except.error e
    | Except.ok p' => addArtificialsLoop mFixed k p' (i + 1)

/-- `formatToIntermediateSimplex()`: no-op when already in simplex form;
otherwise standardize, make all right-hand sides non-negative, install the
auxiliary phase-1 objective, and append the artificial variables.

JavaScript aliasing, modelled explicitly: with exactly one constraint the
`reduce` returns `constraint.coefficients` itself, so after
`this.coefficients = …` the objective array and the single row share storage.
The one artificial `addVariable` then pushes the objective coefficient `0`
and the row entry `1` into that *shared* array: both arrays end as the
original row followed by `[0, 1]`, while `n` grows by one. (With zero
constraints the `reduce` returns the fresh `[]` initial value, and with two or
more constraints the `map` in the second `reduce` step allocates a fresh
array, so no aliasing arises; those cases follow the plain loop.)

`formatCore` is the body after the `isSimplexForm` early return and the
`standardize()` call; `formatFinish` is the artificial-variable step followed
by setting the `isSimplexForm` flag (the non-aliased finish). -/
def formatFinish (p4 : LinearProgram) : Except (LPErr × LinearProgram) LinearProgram :=
  match addArtificialsLoop p4.m p4.m p4 0 with
  | Except.error e => Except.error e
  | Except.ok p5 => Except.ok { p5 with isSimplexForm := true }

def formatCore (p1 : LinearProgram) : Except (LPErr × LinearProgram) LinearProgram :=
  let p2 := { p1 with constraints := negateNegativeRows p1.constraints }
  let p3 := { p2 with constant := -((p2.constraints.map Constraint.value).sum) }
  match phase1Coefficients p3.constraints [] with
  | Except.error e => Except.error (e, p3)
  | Except.ok newCoefficients =>
    let p4 := { p3 with coefficients := newCoefficients }
    match p4.constraints with
    | [c0] =>
      if p4.m = 1 then
        let shared := c0.coefficients ++ [0, 1]
        Except.ok { p4 with
          n := p4.n + 1
          coefficients := shared
          restrictions := p4.restrictions ++ [RestrictionType.nonNegative]
          constraints := [{ c0 with coefficients := shared }]
          isSimplexForm := true }
      else formatFinish p4
    | _ => formatFinish p4

/-- `formatToIntermediateSimplex()` (see `formatCore` for the body). -/
def formatToIntermediateSimplex (p : LinearProgram) : Except (LPErr × LinearProgram) LinearProgram :=
  if p.isSimplexForm then Except.ok p
  else
    match standardize p with
    | Except.error e => Except.error e
    | Except.ok p1 => formatCore p1

/-- The objective-evaluation `reduce` of `solveSimplex` step 4: sum the
objective coefficients of the variables not in the zero set (the index is the
position in the coefficient array). -/
def sumNonZeroAux (zeroVariables : List ℕ) : ℕ → List ℚ → ℚ
  | _, [] => 0
  | i, c :: rest =>
    (if zeroVariables.contains i then 0 else c) + sumNonZeroAux zeroVariables (i + 1) rest

/-- `constraints.findIndex(c => c.coefficients[i] === 1)` with the source's
throw on an `undefined` entry. -/
def findCoeffOneAux (i : ℕ) : ℕ → List Constraint → Except LPErr (Option ℕ)
  | _, [] => Except.ok none
  | j, c :: rest =>
    match c.coefficients[i]? with
    | none => Except.error (LPErr.sizeError (constraintCoefficientUndefinedMsg i 0))
    | some x =>
      if x == 1 then Except.ok (some j) else findCoeffOneAux i (j + 1) rest

/-- `constraint.coefficients.findIndex((c, j) => j < pOrig && c !== 0)`. -/
def findPivotVariableAux (pOrig : ℕ) : ℕ → List ℚ → Option ℕ
  | _, [] => none
  | j, x :: rest =>
    if j < pOrig ∧ x ≠ 0 then some j else findPivotVariableAux pOrig (j + 1) rest

/-- The basis-cleanup loop of `solveSimplex` step 5, over the artificial
variable indices: a still-basic artificial is pivoted out on the first
original column with a nonzero entry in its unit row, or its row and column
are marked for removal when no such column exists. The threaded state is
`(program, zero set, rows to remove, columns to remove)`. -/
def cleanupLoop (pOrig : ℕ) :
    List ℕ → LinearProgram × List ℕ × List ℕ × List ℕ →
    Except (LPErr × LinearProgram) (LinearProgram × List ℕ × List ℕ × List ℕ)
  | [], st => Except.ok st
  | i :: is, (p, zeroVariables, constraintsToRemove, variablesToRemove) =>
    if zeroVariables.contains i then
      cleanupLoop pOrig is (p, zeroVariables, constraintsToRemove, variablesToRemove)
    else
      match findCoeffOneAux i 0 p.constraints with
      | Except.error e => Except.error (e, p)
      | Except.ok none =>
        Except.error (LPErr.solutionError "Non zero variable is not a basic variable", p)
      | Except.ok (some baseIndex) =>
        match p.constraints[baseIndex]? with
        | none => Except.error (LPErr.sizeError (constraintUndefinedMsg baseIndex p.m), p)
        | some constraint =>
          match findPivotVariableAux pOrig 0 constraint.coefficients with
          | none =>
            cleanupLoop pOrig is
              (p, zeroVariables, setAdd constraintsToRemove baseIndex, setAdd variablesToRemove i)
          | some pivotVariableIndex =>
            match pivot p baseIndex pivotVariableIndex with
            | Except.error e => Except.error e
            | Except.ok p' =>
              match setDelete zeroVariables pivotVariableIndex with
              | none => Except.error (LPErr.solutionError "Pivot variable is not a zero variable", p')
              | some z1 =>
                if z1.contains i then
                  Except.error (LPErr.solutionError "Leaving variable is a zero variable", p')
                else
                  cleanupLoop pOrig is (p', setAdd z1 i, constraintsToRemove, variablesToRemove)

/-- JavaScript's default `Array.sort` comparator: lexicographic on the decimal
string representations (UTF-16 code units; for decimal digits this is
character-by-character comparison). -/
def strLtChars : List Char → List Char → Bool
  | [], [] => false
  | [], _ :: _ => true
  | _ :: _, [] => false
  | c :: cs, d :: ds =>
    if c.val < d.val then true
    else if d.val < c.val then false
    else strLtChars cs ds

/-- `a` sorts before `b` under the default JavaScript comparator. -/
def jsLess (a b : ℕ) : Bool := strLtChars (toString a).data (toString b).data

/-- Insertion into a js-sorted list. -/
def insertSorted (x : ℕ) : List ℕ → List ℕ
  | [] => [x]
  | y :: rest => if jsLess x y then x :: y :: rest else y :: insertSorted x rest

/-- `Array.from(set).sort()`: ascending by the JavaScript string comparator. -/
def jsSortAsc (l : List ℕ) : List ℕ := l.foldr insertSorted []

/-- `array.splice(i, 1)`: remove the element at `i`, when `i` is in range;
a no-op (like the source) otherwise. -/
def spliceRemove {α : Type} (l : List α) (i : ℕ) : List α :=
  l.take i ++ l.drop (i + 1)

/-- Remove one variable index from the coefficient, restriction and every
constraint-coefficient array (the body of the variable-removal loop). -/
def removeVariablesStep (p : LinearProgram) (vi : ℕ) : LinearProgram :=
  { p with
    coefficients := spliceRemove p.coefficients vi
    restrictions := spliceRemove p.restrictions vi
    constraints := p.constraints.map (fun c =>
      { c with coefficients := spliceRemove c.coefficients vi }) }

/-- `constraints.every((c, j) => c.coefficients[idx] === 0 || j === ci)`;
an out-of-range read gives `undefined === 0`, i.e. `false`, not a throw. -/
def columnZeroExceptAt (ci idx : ℕ) : ℕ → List Constraint → Bool
  | _, [] => true
  | j, c :: rest =>
    ((c.coefficients[idx]? == some 0) || (j == ci)) && columnZeroExceptAt ci idx (j + 1) rest

/-- The inner `findIndex` of the basis-identification loop: the first column
`idx` of row `ci` with entry `1`, not in the zero set, which is zero in every
other row; a hit at an index `≥ pOrig` is an internal-consistency violation. -/
def basisScan (constraints : List Constraint) (ci pOrig : ℕ) (zeroVariables : List ℕ) :
    ℕ → List ℚ → Except LPErr (Option ℕ)
  | _, [] => Except.ok none
  | idx, x :: rest =>
    if x ≠ 1 ∨ zeroVariables.contains idx then
      basisScan constraints ci pOrig zeroVariables (idx + 1) rest
    else if pOrig ≤ idx then
      Except.error (LPErr.solutionError "Basis variable is an intermediate variable")
    else if columnZeroExceptAt ci idx 0 constraints then Except.ok (some idx)
    else basisScan constraints ci pOrig zeroVariables (idx + 1) rest

/-- The basis-identification loop of `solveSimplex` step 7, over the first
`numberOfAddedVariables` constraint rows (even if rows were removed — the
source keeps the pre-removal bound). -/
def basisLoop (p : LinearProgram) (pOrig : ℕ) (zeroVariables : List ℕ) :
    ℕ → ℕ → List ℕ → Except LPErr (List ℕ)
  | 0, _, acc => Except.ok acc
  | Nat.succ k, ci, acc =>
    match p.constraints[ci]? with
    | none => Except.error (LPErr.sizeError (constraintUndefinedMsg ci p.m))
    | some c =>
      match basisScan p.constraints ci pOrig zeroVariables 0 c.coefficients with
      | Except.error e => Except.error e
      | Except.ok none => Except.error (LPErr.solutionError "No basis variable found for constraint")
      | Except.ok (some b) => basisLoop p pOrig zeroVariables k (ci + 1) (acc ++ [b])

/-- The summation inside the phase-2 objective reconstruction for column `i`:
`Σ over rows of (row coefficient at i) · (standard-form coefficient of the
basis variable of that row)`. -/
def reducedSumLoop (standardCoefficients : List ℚ) (basis : List ℕ) (i : ℕ) :
    ℕ → List Constraint → ℚ → Except LPErr ℚ
  | _, [], acc => Except.ok acc
  | ci, c :: rest, acc =>
    match c.coefficients[i]? with
    | none => Except.error (LPErr.sizeError (constraintCoefficientUndefinedMsg i 0))
    | some x =>
      match basis[ci]? with
      | none => Except.error (LPErr.sizeError ("Basis index at index " ++ toString ci ++ " is undefined"))
      | some b =>
        match standardCoefficients[b]? with
        | none => Except.error (LPErr.sizeError (coefficientUndefinedMsg b 0))
        | some bc => reducedSumLoop standardCoefficients basis i (ci + 1) rest (acc + x * bc)

/-- The phase-2 objective-coefficient map of `solveSimplex` step 7 (the value
of each entry is ignored; only its index matters): `0` for basis columns,
`original + Σ row·basis-original` otherwise. -/
def reducedCoefficientsLoop (constraints : List Constraint) (standardCoefficients : List ℚ)
    (basis : List ℕ) : ℕ → List ℚ → Except LPErr (List ℚ)
  | _, [] => Except.ok []
  | i, _ :: rest =>
    match (if basis.contains i then Except.ok (0 : ℚ)
      else
        match standardCoefficients[i]? with
        | none => Except.error (LPErr.sizeError (coefficientUndefinedMsg i 0))
        | some orig => reducedSumLoop standardCoefficients basis i 0 constraints orig) with
    | Except.error e => Except.error e
    | Except.ok v =>
      match reducedCoefficientsLoop constraints standardCoefficients basis (i + 1) rest with
      | Except.error e => Except.error e
      | Except.ok vs => Except.ok (v :: vs)

/-- The phase-2 constant reconstruction of `solveSimplex` step 7:
`Σ over rows of value · (standard-form coefficient of the basis variable)`. -/
def reconstructConstantLoop (standardCoefficients : List ℚ) (basis : List ℕ) :
    ℕ → List Constraint → ℚ → Except LPErr ℚ
  | _, [], acc => Except.ok acc
  | ci, c :: rest, acc =>
    match basis[ci]? with
    | none => Except.error (LPErr.sizeError ("Basis index at index " ++ toString ci ++ " is undefined"))
    | some b =>
      match standardCoefficients[b]? with
      | none => Except.error (LPErr.sizeError (coefficientUndefinedMsg b 0))
      | some bc => reconstructConstantLoop standardCoefficients basis (ci + 1) rest (acc + c.value * bc)

/-- `solveSimplex()`: the two-phase orchestrator. -/
def solveSimplex (fuel : ℕ) (p : LinearProgram) :
    Except (LPErr × LinearProgram) (SimplexResult × LinearProgram) :=
  match standardize p with
  | Except.error e => Except.error e
  | Except.ok pStd =>
    let standardForm := getSnapshot pStd
    match formatToIntermediateSimplex pStd with
    | Except.error e => Except.error e
    | Except.ok p1 =>
      let numberOfAddedVariables := p1.m
      let numberOfOriginalVariables := p1.n - numberOfAddedVariables
      let zeroVariables := List.range numberOfOriginalVariables
      match solveSimplexRecursive fuel p1 zeroVariables with
      | Except.error e => Except.error e
      | Except.ok (SimplexResult.unbounded, p2) => Except.ok (SimplexResult.unbounded, p2)
      | Except.ok (SimplexResult.infeasible, p2) => Except.ok (SimplexResult.infeasible, p2)
      | Except.ok (SimplexResult.solution zero1, p2) =>
        let intermediateObjective := p2.constant + sumNonZeroAux zero1 0 p2.coefficients
        if intermediateObjective < 0 then Except.ok (SimplexResult.infeasible, p2)
        else
          match cleanupLoop numberOfOriginalVariables
              (List.range' numberOfOriginalVariables (p2.n - numberOfOriginalVariables))
              (p2, zero1, [], []) with
          | Except.error e => Except.error e
          | Except.ok (p3, zero2, constraintsToRemove, variablesToRemove) =>
            let p4 := { p3 with
              constraints := ((jsSortAsc constraintsToRemove).reverse).foldl spliceRemove p3.constraints }
            let p5 := ((jsSortAsc variablesToRemove).reverse).foldl removeVariablesStep p4
            let p6 := { p5 with
              n := p5.n - variablesToRemove.length
              m := p5.m - constraintsToRemove.length }
            match basisLoop p6 numberOfOriginalVariables zero2 numberOfAddedVariables 0 [] with
            | Except.error e => Except.error (e, p6)
            | Except.ok basis =>
              let zero3 := (List.range' numberOfOriginalVariables
                (p6.n - numberOfOriginalVariables)).foldl (fun z i => z.erase i) zero2
              let p7 := { p6 with
                coefficients := p6.coefficients.take numberOfOriginalVariables
                restrictions := p6.restrictions.take numberOfOriginalVariables }
              match reducedCoefficientsLoop p7.constraints standardForm.coefficients basis 0
                  p7.coefficients with
              | Except.error e => Except.error (e, p7)
              | Except.ok newCoefficients =>
                let p8 := { p7 with coefficients := newCoefficients }
                match reconstructConstantLoop standardForm.coefficients basis 0 p8.constraints 0 with
                | Except.error e => Except.error (e, p8)
                | Except.ok newConstant =>
                  let p9 := { p8 with
                    constant := newConstant
                    constraints := p8.constraints.map (fun c =>
                      { c with coefficients := c.coefficients.take numberOfOriginalVariables })
                    n := numberOfOriginalVariables
                    isStandardForm := true
                    isSimplexForm := true }
                  solveSimplexRecursive fuel p9 zero3

/-- The documented structural invariants of the data model:
`coefficients.length == restrictions.length == n`,
`constraints.length == m`, and every `constraints[i].coefficients.length == n`. -/
def WellFormed (p : LinearProgram) : Prop :=
  p.coefficients.length = p.n ∧ p.restrictions.length = p.n ∧
    p.constraints.length = p.m ∧ ∀ c ∈ p.constraints, c.coefficients.length = p.n

instance (p : LinearProgram) : Decidable (WellFormed p) := by
  unfold WellFormed; infer_instance

/-- Tableau entry `a_ij` (row `i`, column `j`), when both indices are in range. -/
def tableauEntry (p : LinearProgram) (i j : ℕ) : Option ℚ :=
  match p.constraints[i]? with
  | none => none
  | some c => c.coefficients[j]?

/-- The program `maximize 2x + 3y subject to x + y ≤ 4, x, y ≥ 0` of the
two-phase scenario, as left by the constructor / `addVariable` /
`addConstraint` calls. -/
def examplePhase2Program : LinearProgram :=
  ⟨ObjectiveType.maximize, 2, [2, 3], 0, 1,
    [⟨ConstraintType.le, 4, [1, 1]⟩],
    [RestrictionType.nonNegative, RestrictionType.nonNegative], false, false⟩

/-- A program with one variable and zero constraints (`maximize x, x ≥ 0`). -/
def singleVariableProgram : LinearProgram :=
  ⟨ObjectiveType.maximize, 1, [1], 0, 0, [], [RestrictionType.nonNegative], false, false⟩

/-- A standard-form program whose single constraint has a negative
coefficient: `maximize x subject to −x = 1, x ≥ 0`. -/
def negativeCoefficientProgram : LinearProgram :=
  ⟨ObjectiveType.maximize, 1, [1], 0, 1,
    [⟨ConstraintType.eq, 1, [-1]⟩], [RestrictionType.nonNegative], true, false⟩

/-- A simplex-form program whose single row has ratio exactly
`Number.MAX_SAFE_INTEGER` in the entering column. -/
def maxSafeRatioProgram : LinearProgram :=
  ⟨ObjectiveType.maximize, 1, [1], 0, 1,
    [⟨ConstraintType.eq, maxSafeInteger, [1]⟩], [RestrictionType.nonNegative], true, true⟩

/-- Row `i` qualifies for the ratio test on entering column `s`: it exists and
has a strictly positive coefficient in column `s`. -/
def QualifyingRow (constraints : List Constraint) (s i : ℕ) : Prop :=
  ∃ c a, constraints[i]? = some c ∧ c.coefficients[s]? = some a ∧ 0 < a

/-- Row `i` qualifies for the ratio test *and* its ratio is strictly below
`Number.MAX_SAFE_INTEGER` (the threshold the source's initial `smallestRatio`
value imposes). -/
def QualifyingRowBelow (constraints : List Constraint) (s i : ℕ) : Prop :=
  ∃ c a, constraints[i]? = some c ∧ c.coefficients[s]? = some a ∧ 0 < a ∧
    c.value / a < maxSafeInteger

/-- The value the auxiliary phase-1 objective actually assigns to column `j`:
the first constraint's coefficient (not its absolute value) plus the sum of
the absolute values over the remaining constraints. -/
def phase1ColumnValue (c0 : Constraint) (rest : List Constraint) (j : ℕ) : ℚ :=
  c0.coefficients.getD j 0 + (rest.map (fun c => |c.coefficients.getD j 0|)).sum

/-- The value claimed by the specification for column `j` of the auxiliary
phase-1 objective: the sum of the absolute values over *all* constraints. -/
def phase1ColumnClaimed (constraints : List Constraint) (j : ℕ) : ℚ :=
  (constraints.map (fun c => |c.coefficients.getD j 0|)).sum

/-- The state `solveSimplex` leaves behind on `singleVariableProgram`: the
phase-1 `reduce` replaced `coefficients` by the empty initial accumulator
(there are no constraints), so `coefficients.length = 0` while `n = 1`. -/
def finalSingleVariableState : LinearProgram :=
  ⟨ObjectiveType.maximize, 1, [], 0, 0, [], [RestrictionType.nonNegative], true, true⟩

/-- The state `solveSimplex` reaches on `examplePhase2Program` when phase 1
throws: the single-constraint aliasing in `formatToIntermediateSimplex` left
the objective array (and the row) with five entries while `n = 4`, and the
artificial column reads as all-zero. -/
def corruptedPhase1State : LinearProgram :=
  ⟨ObjectiveType.maximize, 4, [1, 1, 1, 0, 1], -4, 1,
    [⟨ConstraintType.eq, 4, [1, 1, 1, 0, 1]⟩],
    [RestrictionType.nonNegative, RestrictionType.nonNegative, RestrictionType.nonNegative,
      RestrictionType.nonNegative], true, true⟩

/-- The state `formatToIntermediateSimplex` produces on
`negativeCoefficientProgram` (including the single-constraint aliasing of the
objective array with the row). -/
def formattedNegativeCoefficientState : LinearProgram :=
  ⟨ObjectiveType.maximize, 2, [-1, 0, 1], -1, 1,
    [⟨ConstraintType.eq, 1, [-1, 0, 1]⟩],
    [RestrictionType.nonNegative, RestrictionType.nonNegative], true, true⟩

/-! ## Theorems -/

theorem applySnapshot_getSnapshot (p : LinearProgram) : applySnapshot (getSnapshot p) = p := rfl

/-- C9: for every callback, `withoutChanges(callback)` restores the complete
pre-call program state (all fields, the two flags included) on every exit
path — normal return or throw — and on the normal path returns the callback's
result. The restored state is literally `p`, so every field matches the
pre-call state. -/
theorem withoutChanges_restores_state {ε α : Type} (p : LinearProgram)
    (callback : LinearProgram → Except (ε × LinearProgram) (α × LinearProgram)) :
    withoutChanges p callback =
      match callback p with
      | Except.ok (t, _) => Except.ok (t, p)
      | Except.error (e, _) => Except.error (e, p) := by
  simp only [withoutChanges, applySnapshot_getSnapshot]

/-- C8: `addVariable` with a constraint-coefficient array whose length differs
from the current `m` always fails with a `SizeError` whose message names both
lengths (see `cannotAddVariableMsg`), and `addConstraint` with a coefficient
array whose length differs from the current `n` always fails with a
`SizeError` whose message names both lengths (see `cannotAddConstraintMsg`). -/
theorem add_dimension_mismatch_size_errors (p q : LinearProgram) (c : ℚ) (ccs : List ℚ)
    (r : RestrictionType) (t : ConstraintType) (v : ℚ) (cs : List ℚ)
    (hv : ccs.length ≠ p.m) (hc : cs.length ≠ q.n) :
    (∃ s, addVariable p c ccs r =
      Except.error (LPErr.sizeError (cannotAddVariableMsg ccs.length p.m), s)) ∧
    (∃ s, addConstraint q t v cs =
      Except.error (LPErr.sizeError (cannotAddConstraintMsg cs.length q.n), s)) := by
  constructor
  · refine ⟨{ p with
      isStandardForm := p.isStandardForm && (r == RestrictionType.nonNegative)
      isSimplexForm := false }, ?_⟩
    simp [addVariable, hv]
  · refine ⟨{ q with
      isStandardForm := q.isStandardForm && (t == ConstraintType.eq)
      isSimplexForm := false }, ?_⟩
    simp [addConstraint, hc]

theorem add_dimension_mismatch_size_errors_witness :
    (∃ s, addVariable (mkLinearProgram ObjectiveType.maximize) 1 [5] RestrictionType.unrestricted =
      Except.error (LPErr.sizeError (cannotAddVariableMsg 1 0), s)) ∧
    (∃ s, addConstraint (mkLinearProgram ObjectiveType.maximize) ConstraintType.le 4 [1] =
      Except.error (LPErr.sizeError (cannotAddConstraintMsg 1 0), s)) :=
  add_dimension_mismatch_size_errors (mkLinearProgram ObjectiveType.maximize)
    (mkLinearProgram ObjectiveType.maximize) 1 [5] RestrictionType.unrestricted
    ConstraintType.le 4 [1] (by decide) (by decide)

/-- C10: when `addVariable` / `addConstraint` fail on the dimension check, the
fields `n`, `m`, `coefficients`, `restrictions` and `constraints` are left
unchanged, but `isSimplexForm` has already been set to `false`, and
`isStandardForm` has been set to `false` whenever the supplied restriction is
not `non-negative` (for `addVariable`) or the supplied type is not `"="` (for
`addConstraint`): the failed call is not atomic for the two flags. -/
theorem failed_add_updates_flags (p q : LinearProgram) (c : ℚ) (ccs : List ℚ)
    (r : RestrictionType) (t : ConstraintType) (v : ℚ) (cs : List ℚ)
    (hv : ccs.length ≠ p.m) (hc : cs.length ≠ q.n) :
    (∃ msg s, addVariable p c ccs r = Except.error (LPErr.sizeError msg, s) ∧
      s.n = p.n ∧ s.m = p.m ∧ s.coefficients = p.coefficients ∧
      s.restrictions = p.restrictions ∧ s.constraints = p.constraints ∧
      s.isSimplexForm = false ∧
      (r ≠ RestrictionType.nonNegative → s.isStandardForm = false)) ∧
    (∃ msg s, addConstraint q t v cs = Except.error (LPErr.sizeError msg, s) ∧
      s.n = q.n ∧ s.m = q.m ∧ s.coefficients = q.coefficients ∧
      s.restrictions = q.restrictions ∧ s.constraints = q.constraints ∧
      s.isSimplexForm = false ∧
      (t ≠ ConstraintType.eq → s.isStandardForm = false)) := by
  constructor
  · refine ⟨cannotAddVariableMsg ccs.length p.m, { p with
      isStandardForm := p.isStandardForm && (r == RestrictionType.nonNegative)
      isSimplexForm := false }, by simp [addVariable, hv], rfl, rfl, rfl, rfl, rfl, rfl,
      fun hr => ?_⟩
    have hbe : (r == RestrictionType.nonNegative) = false := by
      cases r with
      | nonNegative => exact absurd rfl hr
      | unrestricted => rfl
    simp [hbe]
  · refine ⟨cannotAddConstraintMsg cs.length q.n, { q with
      isStandardForm := q.isStandardForm && (t == ConstraintType.eq)
      isSimplexForm := false }, by simp [addConstraint, hc], rfl, rfl, rfl, rfl, rfl, rfl,
      fun ht => ?_⟩
    have hbe : (t == ConstraintType.eq) = false := by
      cases t with
      | eq => exact absurd rfl ht
      | le => rfl
      | ge => rfl
    simp [hbe]

theorem failed_add_updates_flags_witness :
    (([5] : List ℚ).length ≠ (mkLinearProgram ObjectiveType.maximize).m) ∧
    (∃ msg s,
      addVariable (mkLinearProgram ObjectiveType.maximize) 1 [5] RestrictionType.unrestricted =
        Except.error (LPErr.sizeError msg, s) ∧
      s.n = (mkLinearProgram ObjectiveType.maximize).n ∧
      s.m = (mkLinearProgram ObjectiveType.maximize).m ∧
      s.coefficients = (mkLinearProgram ObjectiveType.maximize).coefficients ∧
      s.restrictions = (mkLinearProgram ObjectiveType.maximize).restrictions ∧
      s.constraints = (mkLinearProgram ObjectiveType.maximize).constraints ∧
      s.isSimplexForm = false ∧
      (RestrictionType.unrestricted ≠ RestrictionType.nonNegative → s.isStandardForm = false)) :=
  ⟨by decide,
    (failed_add_updates_flags (mkLinearProgram ObjectiveType.maximize)
      (mkLinearProgram ObjectiveType.maximize) 1 [5] RestrictionType.unrestricted
      ConstraintType.le 4 [1] (by decide) (by decide)).1⟩

theorem standardize_ok_flag {p q : LinearProgram} (h : standardize p = Except.ok q) :
    q.isStandardForm = true := by
  unfold standardize at h
  cases hb : p.isStandardForm with
  | true =>
    rw [hb] at h
    simp at h
    rw [← h]
    exact hb
  | false =>
    rw [hb] at h
    simp only [Bool.false_eq_true, if_false] at h
    unfold standardizeCore at h
    cases h1 : standardizeConstraintsLoop (negateObjectiveIfMinimize p).m
        (negateObjectiveIfMinimize p) 0 with
    | error e => simp [h1] at h
    | ok p2 =>
      simp only [h1] at h
      cases h2 : standardizeRestrictionsLoop (2 * p2.n + 1) p2 0 with
      | error e => simp [h2] at h
      | ok p3 =>
        simp only [h2, Except.ok.injEq] at h
        rw [← h]

/-- C7: calling `standardize()` twice produces exactly the same outcome (and
hence the same serialized output) as calling it once — on the error path the
exception propagates and the second call never runs, which `bind` models; and
`standardize` is a no-op returning the unchanged program whenever
`isStandardForm` is already `true`. -/
theorem standardize_idempotent (p : LinearProgram) :
    (standardize p >>= standardize) = standardize p ∧
    ((standardize p >>= standardize).map serialize = (standardize p).map serialize) ∧
    (p.isStandardForm = true → standardize p = Except.ok p) := by
  have key : (standardize p >>= standardize) = standardize p := by
    cases h : standardize p with
    | error e => rfl
    | ok q =>
      have hq : q.isStandardForm = true := standardize_ok_flag h
      show standardize q = Except.ok q
      unfold standardize
      rw [hq]
      rfl
  refine ⟨key, by rw [key], fun hs => ?_⟩
  unfold standardize
  rw [hs]
  rfl

theorem standardize_idempotent_witness :
    (standardize negativeCoefficientProgram >>= standardize)
        = standardize negativeCoefficientProgram ∧
    standardize negativeCoefficientProgram = Except.ok negativeCoefficientProgram :=
  ⟨(standardize_idempotent negativeCoefficientProgram).1,
    (standardize_idempotent negativeCoefficientProgram).2.2 rfl⟩

theorem replayVariables_spec (l : List (ℚ × RestrictionType)) :
    ∀ p : LinearProgram, p.m = 0 → p.constraints = [] →
    ∃ q, replayVariables l p = Except.ok q ∧
      q.objectiveType = p.objectiveType ∧
      q.n = p.n + l.length ∧
      q.coefficients = p.coefficients ++ l.map Prod.fst ∧
      q.restrictions = p.restrictions ++ l.map Prod.snd ∧
      q.m = 0 ∧ q.constraints = [] ∧ q.constant = p.constant := by
  induction l with
  | nil =>
    intro p hm hcs
    exact ⟨p, rfl, rfl, by simp, by simp, by simp, hm, hcs, rfl⟩
  | cons hd tl ih =>
    intro p hm hcs
    obtain ⟨c, r⟩ := hd
    have step : addVariable p c [] r = Except.ok
        { p with
          n := p.n + 1
          coefficients := p.coefficients ++ [c]
          restrictions := p.restrictions ++ [r]
          constraints := []
          isStandardForm := p.isStandardForm && (r == RestrictionType.nonNegative)
          isSimplexForm := false } := by
      simp [addVariable, hm, hcs]
    obtain ⟨q, hq, h1, h2, h3, h4, h5, h6, h7⟩ := ih
      { p with
        n := p.n + 1
        coefficients := p.coefficients ++ [c]
        restrictions := p.restrictions ++ [r]
        constraints := []
        isStandardForm := p.isStandardForm && (r == RestrictionType.nonNegative)
        isSimplexForm := false } hm rfl
    refine ⟨q, ?_, h1, ?_, ?_, ?_, h5, h6, h7⟩
    · show (match addVariable p c [] r with
        | Except.error e => Except.error e
        | Except.ok p' => replayVariables tl p') = Except.ok q
      rw [step]
      exact hq
    · simp at h2 ⊢
      omega
    · simp at h3
      simp [h3]
    · simp at h4
      simp [h4]

theorem replayConstraints_spec (l : List Constraint) :
    ∀ p : LinearProgram, (∀ c ∈ l, c.coefficients.length = p.n) →
    ∃ q, replayConstraints l p = Except.ok q ∧
      q.objectiveType = p.objectiveType ∧ q.n = p.n ∧
      q.coefficients = p.coefficients ∧ q.restrictions = p.restrictions ∧
      q.m = p.m + l.length ∧ q.constraints = p.constraints ++ l ∧
      q.constant = p.constant := by
  induction l with
  | nil =>
    intro p _
    exact ⟨p, rfl, rfl, rfl, rfl, rfl, by simp, by simp, rfl⟩
  | cons hd tl ih =>
    intro p hlen
    have hhd : hd.coefficients.length = p.n := hlen hd (by simp)
    have step : addConstraint p hd.type hd.value hd.coefficients = Except.ok
        { p with
          m := p.m + 1
          constraints := p.constraints ++ [hd]
          isStandardForm := p.isStandardForm && (hd.type == ConstraintType.eq)
          isSimplexForm := false } := by
      simp [addConstraint, hhd]
    obtain ⟨q, hq, h1, h2, h3, h4, h5, h6, h7⟩ := ih
      { p with
        m := p.m + 1
        constraints := p.constraints ++ [hd]
        isStandardForm := p.isStandardForm && (hd.type == ConstraintType.eq)
        isSimplexForm := false }
      (fun c hc => hlen c (by simp [hc]))
    refine ⟨q, ?_, h1, h2, h3, h4, ?_, ?_, h7⟩
    · show (match addConstraint p hd.type hd.value hd.coefficients with
        | Except.error e => Except.error e
        | Except.ok p' => replayConstraints tl p') = Except.ok q
      rw [step]
      exact hq
    · simp at h5 ⊢
      omega
    · simp at h6
      simp [h6]

/-- C6: for every valid program `P` — one accepted by `deserialize` — the
serialization of `P` equals the record it was deserialized from, so
`deserialize(serialize(P))` succeeds (with `P` itself) and serializes
byte-identically to `serialize(P)` (equal `SerializedData` values render to
identical `JSON.stringify` output). -/
theorem deserialize_serialize_roundtrip (d : SerializedData) (p : LinearProgram)
    (h : deserialize d = Except.ok p) :
    serialize p = d ∧ deserialize (serialize p) = Except.ok p := by
  suffices hs : serialize p = d by exact ⟨hs, by rw [hs]; exact h⟩
  unfold deserialize at h
  by_cases hlen' : d.coefficients.length = d.restrictions.length
  case neg =>
    rw [if_pos hlen'] at h
    exact absurd h (by simp)
  rw [if_neg (fun hne => hne hlen')] at h
  cases hfind : List.findIdx? (fun c => c.coefficients.length != d.coefficients.length)
      d.constraints with
  | some i =>
    rw [hfind] at h
    exact absurd h (by simp)
  | none =>
    simp only [hfind] at h
    have hrows : ∀ c ∈ d.constraints, c.coefficients.length = d.coefficients.length := by
      intro c hc
      have := List.findIdx?_eq_none_iff.mp hfind c hc
      simpa using this
    obtain ⟨q1, hq1, g1, g2, g3, g4, g5, g6, g7⟩ :=
      replayVariables_spec (d.coefficients.zip d.restrictions)
        (mkLinearProgram d.objectiveType) rfl rfl
    simp only [hq1] at h
    have hq1n : q1.n = d.coefficients.length := by
      rw [g2]
      simp [mkLinearProgram, List.length_zip, hlen']
    obtain ⟨q2, hq2, k1, k2, k3, k4, k5, k6, k7⟩ :=
      replayConstraints_spec d.constraints q1
        (fun c hc => by rw [hq1n]; exact hrows c hc)
    simp only [hq2] at h
    simp only [Except.ok.injEq] at h
    subst h
    have e1 : q2.objectiveType = d.objectiveType := by
      rw [k1, g1]
      rfl
    have e2 : q2.coefficients = d.coefficients := by
      rw [k3, g3]
      simp only [mkLinearProgram, List.nil_append]
      exact List.map_fst_zip _ _ (le_of_eq hlen')
    have e3 : q2.restrictions = d.restrictions := by
      rw [k4, g4]
      simp only [mkLinearProgram, List.nil_append]
      exact List.map_snd_zip _ _ (le_of_eq hlen'.symm)
    have e4 : q2.constraints = d.constraints := by
      rw [k6, g6]
      simp
    cases d
    simp only [serialize, setConstant, SerializedData.mk.injEq]
    exact ⟨e1, e2, e3, e4, trivial⟩

theorem deserialize_serialize_roundtrip_witness :
    serialize examplePhase2Program = serialize examplePhase2Program ∧
    deserialize (serialize examplePhase2Program) = Except.ok examplePhase2Program :=
  deserialize_serialize_roundtrip (serialize examplePhase2Program) examplePhase2Program
    (by decide)

theorem exMap_ok {α β : Type} (f : α → Except LPErr β) (g : α → β) :
    ∀ l : List α, (∀ a ∈ l, f a = Except.ok (g a)) → exMap f l = Except.ok (l.map g) := by
  intro l
  induction l with
  | nil => intro _; rfl
  | cons a l ih =>
    intro h
    have ha := h a (by simp)
    have hl := ih (fun x hx => h x (by simp [hx]))
    simp [exMap, ha, hl]

theorem getElem?_some_getD {α : Type} (l : List α) (j : ℕ) (d : α) (h : j < l.length) :
    l[j]? = some (l.getD j d) := by
  rw [List.getElem?_eq_getElem h, List.getD_eq_getElem?_getD, List.getElem?_eq_getElem h]
  rfl

/-- C1: on a well-formed state, for constraint index `r < m` and variable
index `s < n` with nonzero tableau entry `a_rs`, `pivot(r, s)` succeeds and
afterwards column `s` holds exactly `1` in row `r` and `0` in every other
constraint row. -/
theorem pivot_unit_column (p : LinearProgram) (r s : ℕ) (a : ℚ)
    (hw : WellFormed p) (hr : r < p.m) (hs : s < p.n)
    (ha : tableauEntry p r s = some a) (hnz : a ≠ 0) :
    ∃ q, pivot p r s = Except.ok q ∧
      tableauEntry q r s = some 1 ∧
      ∀ i, i < p.m → i ≠ r → tableauEntry q i s = some 0 := by
  obtain ⟨hc, hre, hcm, hrows⟩ := hw
  have hrlen : r < p.constraints.length := by rw [hcm]; exact hr
  have hrowR : p.constraints[r]? = some (p.constraints[r]) := List.getElem?_eq_getElem hrlen
  have hrowlen : (p.constraints[r]).coefficients.length = p.n :=
    hrows _ (List.getElem_mem hrlen)
  have hra : (p.constraints[r]).coefficients[s]? = some a := by
    unfold tableauEntry at ha
    rw [hrowR] at ha
    exact ha
  have hraD : (p.constraints[r]).coefficients.getD s 0 = a := by
    rw [List.getD_eq_getElem?_getD, hra]
    rfl
  have hslen : s < p.coefficients.length := by rw [hc]; exact hs
  have hcs : p.coefficients[s]? = some (p.coefficients[s]) := List.getElem?_eq_getElem hslen
  have hex1 : exMap (fun j =>
      match (p.constraints[r]).coefficients[j]?, p.coefficients[j]? with
      | some arj, some cj => Except.ok (cj - arj * p.coefficients[s] / a)
      | _, _ => Except.error (LPErr.sizeError (coefficientUndefinedMsg j p.n)))
      (List.range p.n) = Except.ok ((List.range p.n).map (fun j =>
        p.coefficients.getD j 0 -
          (p.constraints[r]).coefficients.getD j 0 * p.coefficients[s] / a)) := by
    apply exMap_ok
    intro j hj
    rw [List.mem_range] at hj
    rw [getElem?_some_getD (p.constraints[r]).coefficients j 0 (by rw [hrowlen]; exact hj),
      getElem?_some_getD p.coefficients j 0 (by rw [hc]; exact hj)]
  have hex2 : exMap (fun i =>
      match p.constraints[i]? with
      | none => Except.error (LPErr.sizeError (constraintUndefinedMsg i p.m))
      | some ci =>
        match ci.coefficients[s]? with
        | none =>
          Except.error (LPErr.sizeError (constraintCoefficientUndefinedMsg s p.n))
        | some ais =>
          match exMap (fun j =>
              match (p.constraints[r]).coefficients[j]?, ci.coefficients[j]? with
              | some arj, some aij =>
                Except.ok (if i = r then aij / a else aij - arj * ais / a)
              | _, _ =>
                Except.error (LPErr.sizeError (constraintCoefficientUndefinedMsg j p.n)))
              (List.range p.n) with
          | Except.error e => Except.error e
          | Except.ok row =>
            Except.ok { ci with
              value := if i = r then (p.constraints[r]).value / a
                else ci.value - ais * (p.constraints[r]).value / a
              coefficients := row ++ ci.coefficients.drop p.n })
      (List.range p.m) = Except.ok ((List.range p.m).map (fun i =>
        { p.constraints.getD i ⟨ConstraintType.eq, 0, []⟩ with
          value := if i = r then (p.constraints[r]).value / a
            else (p.constraints.getD i ⟨ConstraintType.eq, 0, []⟩).value -
              (p.constraints.getD i ⟨ConstraintType.eq, 0, []⟩).coefficients.getD s 0 *
                (p.constraints[r]).value / a
          coefficients := ((List.range p.n).map (fun j =>
              if i = r then
                (p.constraints.getD i ⟨ConstraintType.eq, 0, []⟩).coefficients.getD j 0 / a
              else
                (p.constraints.getD i ⟨ConstraintType.eq, 0, []⟩).coefficients.getD j 0 -
                  (p.constraints[r]).coefficients.getD j 0 *
                    (p.constraints.getD i ⟨ConstraintType.eq, 0, []⟩).coefficients.getD s 0 / a))
            ++ (p.constraints.getD i ⟨ConstraintType.eq, 0, []⟩).coefficients.drop p.n })) := by
    apply exMap_ok
    intro i hi
    rw [List.mem_range] at hi
    have hilen : i < p.constraints.length := by rw [hcm]; exact hi
    have hgetDi : p.constraints.getD i ⟨ConstraintType.eq, 0, []⟩ = p.constraints[i] :=
      List.getD_eq_getElem _ _ hilen
    have hgi : p.constraints[i]? = some (p.constraints.getD i ⟨ConstraintType.eq, 0, []⟩) :=
      getElem?_some_getD _ _ _ hilen
    have hirowlen : (p.constraints.getD i ⟨ConstraintType.eq, 0, []⟩).coefficients.length = p.n := by
      rw [hgetDi]
      exact hrows _ (List.getElem_mem hilen)
    have hin : exMap (fun j =>
        match (p.constraints[r]).coefficients[j]?,
            (p.constraints.getD i ⟨ConstraintType.eq, 0, []⟩).coefficients[j]? with
        | some arj, some aij =>
          Except.ok (if i = r then aij / a
            else aij - arj *
              (p.constraints.getD i ⟨ConstraintType.eq, 0, []⟩).coefficients.getD s 0 / a)
        | _, _ => Except.error (LPErr.sizeError (constraintCoefficientUndefinedMsg j p.n)))
        (List.range p.n)
        = Except.ok ((List.range p.n).map (fun j =>
          if i = r then
            (p.constraints.getD i ⟨ConstraintType.eq, 0, []⟩).coefficients.getD j 0 / a
          else
            (p.constraints.getD i ⟨ConstraintType.eq, 0, []⟩).coefficients.getD j 0 -
              (p.constraints[r]).coefficients.getD j 0 *
                (p.constraints.getD i ⟨ConstraintType.eq, 0, []⟩).coefficients.getD s 0 / a)) := by
      apply exMap_ok
      intro j hj
      rw [List.mem_range] at hj
      rw [getElem?_some_getD (p.constraints[r]).coefficients j 0 (by rw [hrowlen]; exact hj),
        getElem?_some_getD (p.constraints.getD i ⟨ConstraintType.eq, 0, []⟩).coefficients j 0
          (by rw [hirowlen]; exact hj)]
    simp only [hgi,
      getElem?_some_getD (p.constraints.getD i ⟨ConstraintType.eq, 0, []⟩).coefficients s 0
        (by rw [hirowlen]; exact hs), hin]
  simp only [pivot, hrowR, hra, hcs, hex1, hex2]
  refine ⟨_, rfl, ?_, ?_⟩
  · unfold tableauEntry
    rw [List.getElem?_append]
    simp only [List.length_map, List.length_range]
    rw [if_pos hr, List.getElem?_map, List.getElem?_range hr]
    simp only [Option.map_some']
    rw [List.getElem?_append]
    simp only [List.length_map, List.length_range]
    rw [if_pos hs, List.getElem?_map, List.getElem?_range hs]
    simp only [Option.map_some', if_pos rfl]
    rw [List.getD_eq_getElem _ _ hrlen, hraD, div_self hnz]
    simp
  · intro i hi hir
    unfold tableauEntry
    rw [List.getElem?_append]
    simp only [List.length_map, List.length_range]
    rw [if_pos hi, List.getElem?_map, List.getElem?_range hi]
    simp only [Option.map_some']
    rw [List.getElem?_append]
    simp only [List.length_map, List.length_range]
    rw [if_pos hs, List.getElem?_map, List.getElem?_range hs]
    simp only [Option.map_some', if_neg hir]
    rw [hraD, mul_div_cancel_left₀ _ hnz, sub_self]

theorem pivot_unit_column_witness :
    ∃ q, pivot ⟨ObjectiveType.maximize, 2, [3, 5], 7, 2,
        [⟨ConstraintType.eq, 8, [2, 4]⟩, ⟨ConstraintType.eq, 6, [1, 3]⟩],
        [RestrictionType.nonNegative, RestrictionType.nonNegative], false, false⟩ 0 1 =
      Except.ok q ∧
      tableauEntry q 0 1 = some 1 ∧
      ∀ i, i < 2 → i ≠ 0 → tableauEntry q i 1 = some 0 :=
  pivot_unit_column _ 0 1 4 (by decide) (by decide) (by decide) (by decide) (by decide)

theorem ratioLoop_spec (constraints : List Constraint) (s : ℕ)
    (hs : ∀ c ∈ constraints, s < c.coefficients.length) :
    ∀ (k i : ℕ) (bR : ℚ) (best : Option (ℕ × Constraint)),
    i + k ≤ constraints.length →
    (best = none → bR = maxSafeInteger ∧
      ∀ j, j < i → ¬ QualifyingRowBelow constraints s j) →
    (∀ r c, best = some (r, c) → r < i ∧ constraints[r]? = some c ∧
      ∃ a, c.coefficients[s]? = some a ∧ 0 < a ∧ c.value / a = bR ∧ bR < maxSafeInteger ∧
        (∀ j cj aj, j < i → constraints[j]? = some cj → cj.coefficients[s]? = some aj →
          0 < aj → bR ≤ cj.value / aj) ∧
        (∀ j cj aj, j < r → constraints[j]? = some cj → cj.coefficients[s]? = some aj →
          0 < aj → bR < cj.value / aj)) →
    ∃ final, ratioLoop constraints s i k bR best = Except.ok final ∧
      (final = none → ∀ j, j < i + k → ¬ QualifyingRowBelow constraints s j) ∧
      (∀ r c, final = some (r, c) → r < i + k ∧ constraints[r]? = some c ∧
        ∃ a, c.coefficients[s]? = some a ∧ 0 < a ∧ c.value / a < maxSafeInteger ∧
          (∀ j cj aj, j < i + k → constraints[j]? = some cj → cj.coefficients[s]? = some aj →
            0 < aj → c.value / a ≤ cj.value / aj) ∧
          (∀ j cj aj, j < r → constraints[j]? = some cj → cj.coefficients[s]? = some aj →
            0 < aj → c.value / a < cj.value / aj)) := by
  intro k
  induction k with
  | zero =>
    intro i bR best _ hnone hsome
    refine ⟨best, rfl, ?_, ?_⟩
    · intro hb
      simpa using (hnone hb).2
    · intro r c hb
      obtain ⟨h1, h2, a, h3, h4, h5, h6, h7, h8⟩ := hsome r c hb
      exact ⟨by simpa using h1, h2, a, h3, h4, by rw [h5]; exact h6,
        by simpa [← h5] using h7, by simpa [← h5] using h8⟩
  | succ k ih =>
    intro i bR best hlen hnone hsome
    have hilen : i < constraints.length := by omega
    have hci : constraints[i]? = some (constraints.getD i ⟨ConstraintType.eq, 0, []⟩) :=
      getElem?_some_getD _ _ _ hilen
    have hcimem : constraints.getD i ⟨ConstraintType.eq, 0, []⟩ ∈ constraints := by
      rw [List.getD_eq_getElem _ _ hilen]
      exact List.getElem_mem hilen
    have hsi : s < (constraints.getD i ⟨ConstraintType.eq, 0, []⟩).coefficients.length :=
      hs _ hcimem
    have hai : (constraints.getD i ⟨ConstraintType.eq, 0, []⟩).coefficients[s]? =
        some ((constraints.getD i ⟨ConstraintType.eq, 0, []⟩).coefficients.getD s 0) :=
      getElem?_some_getD _ _ _ hsi
    have huniq : ∀ {cj : Constraint} {aj : ℚ}, constraints[i]? = some cj →
        cj.coefficients[s]? = some aj →
        cj = constraints.getD i ⟨ConstraintType.eq, 0, []⟩ ∧
          aj = (constraints.getD i ⟨ConstraintType.eq, 0, []⟩).coefficients.getD s 0 := by
      intro cj aj h1 h2
      rw [hci] at h1
      cases h1
      rw [hai] at h2
      cases h2
      exact ⟨rfl, rfl⟩
    show ∃ final, ratioLoop constraints s i (Nat.succ k) bR best = Except.ok final ∧ _
    simp only [ratioLoop, hci, hai]
    by_cases hpos : (constraints.getD i ⟨ConstraintType.eq, 0, []⟩).coefficients.getD s 0 ≤ 0
    · rw [if_pos hpos]
      have hnq : ¬ QualifyingRow constraints s i := by
        rintro ⟨c, a, h1, h2, h3⟩
        obtain ⟨hc', ha'⟩ := huniq h1 h2
        rw [ha'] at h3
        exact absurd h3 (not_lt.mpr hpos)
      have hnqb : ¬ QualifyingRowBelow constraints s i := by
        rintro ⟨c, a, h1, h2, h3, _⟩
        exact hnq ⟨c, a, h1, h2, h3⟩
      obtain ⟨final, hrl, hf1, hf2⟩ := ih (i + 1) bR best (by omega)
        (fun hb => ⟨(hnone hb).1, fun j hj => by
          rcases Nat.lt_succ_iff_lt_or_eq.mp hj with hj' | hj'
          · exact (hnone hb).2 j hj'
          · rw [hj']; exact hnqb⟩)
        (fun r c hb => by
          obtain ⟨h1, h2, a, h3, h4, h5, h6, h7, h8⟩ := hsome r c hb
          refine ⟨by omega, h2, a, h3, h4, h5, h6, fun j cj aj hj hcj haj hposj => ?_, h8⟩
          rcases Nat.lt_succ_iff_lt_or_eq.mp hj with hj' | hj'
          · exact h7 j cj aj hj' hcj haj hposj
          · subst hj'
            obtain ⟨hc', ha'⟩ := huniq hcj haj
            rw [ha'] at hposj
            exact absurd hposj (not_lt.mpr hpos))
      refine ⟨final, hrl, fun hb j hj => ?_, fun r c hb => ?_⟩
      · exact hf1 hb j (by omega)
      · obtain ⟨h1, h2, rest⟩ := hf2 r c hb
        exact ⟨by omega, h2, by
          obtain ⟨a, h3, h4, h5, h6, h7⟩ := rest
          exact ⟨a, h3, h4, h5, fun j cj aj hj hcj haj hposj =>
            h6 j cj aj (by omega) hcj haj hposj, h7⟩⟩
    · rw [if_neg hpos]
      have hposa : 0 < (constraints.getD i ⟨ConstraintType.eq, 0, []⟩).coefficients.getD s 0 :=
        lt_of_not_le hpos
      have hqi : QualifyingRow constraints s i :=
        ⟨_, _, hci, hai, hposa⟩
      by_cases hlt : (constraints.getD i ⟨ConstraintType.eq, 0, []⟩).value /
          (constraints.getD i ⟨ConstraintType.eq, 0, []⟩).coefficients.getD s 0 < bR
      · simp only [if_pos hlt]
        have hrtMSI : (constraints.getD i ⟨ConstraintType.eq, 0, []⟩).value /
            (constraints.getD i ⟨ConstraintType.eq, 0, []⟩).coefficients.getD s 0 <
              maxSafeInteger := by
          cases hbest : best with
          | none =>
            have := (hnone hbest).1
            rw [this] at hlt
            exact hlt
          | some rc =>
            obtain ⟨h1, h2, a, h3, h4, h5, h6, h7, h8⟩ := hsome rc.1 rc.2 (by rw [hbest])
            exact lt_trans hlt h6
        have hleall : ∀ j cj aj, j < i → constraints[j]? = some cj →
            cj.coefficients[s]? = some aj → 0 < aj →
            (constraints.getD i ⟨ConstraintType.eq, 0, []⟩).value /
              (constraints.getD i ⟨ConstraintType.eq, 0, []⟩).coefficients.getD s 0 <
                cj.value / aj := by
          intro j cj aj hj hcj haj hposj
          cases hbest : best with
          | none =>
            have hnqb := (hnone hbest).2 j hj
            have hge : maxSafeInteger ≤ cj.value / aj := by
              by_contra hc
              exact hnqb ⟨cj, aj, hcj, haj, hposj, lt_of_not_le hc⟩
            exact lt_of_lt_of_le hrtMSI hge
          | some rc =>
            obtain ⟨h1, h2, a, h3, h4, h5, h6, h7, h8⟩ := hsome rc.1 rc.2 (by rw [hbest])
            exact lt_of_lt_of_le hlt (h7 j cj aj hj hcj haj hposj)
        obtain ⟨final, hrl, hf1, hf2⟩ := ih (i + 1)
          ((constraints.getD i ⟨ConstraintType.eq, 0, []⟩).value /
            (constraints.getD i ⟨ConstraintType.eq, 0, []⟩).coefficients.getD s 0)
          (some (i, constraints.getD i ⟨ConstraintType.eq, 0, []⟩)) (by omega)
          (fun hb => by cases hb)
          (fun r c hb => by
            rw [Option.some.injEq, Prod.mk.injEq] at hb
            obtain ⟨hbr, hbc⟩ := hb
            subst hbr
            subst hbc
            refine ⟨by omega, hci, _, hai, hposa, rfl, hrtMSI,
              fun j cj aj hj hcj haj hposj => ?_, fun j cj aj hj hcj haj hposj => ?_⟩
            · rcases Nat.lt_succ_iff_lt_or_eq.mp hj with hj' | hj'
              · exact le_of_lt (hleall j cj aj hj' hcj haj hposj)
              · subst hj'
                obtain ⟨hc', ha'⟩ := huniq hcj haj
                subst hc'
                rw [ha']
            · exact hleall j cj aj hj hcj haj hposj)
        refine ⟨final, hrl, fun hb j hj => hf1 hb j (by omega), fun r c hb => ?_⟩
        obtain ⟨h1, h2, a, h3, h4, h5, h6, h7⟩ := hf2 r c hb
        exact ⟨by omega, h2, a, h3, h4, h5,
          fun j cj aj hj hcj haj hposj => h6 j cj aj (by omega) hcj haj hposj, h7⟩
      · simp only [if_neg hlt]
        have hble : bR ≤ (constraints.getD i ⟨ConstraintType.eq, 0, []⟩).value /
            (constraints.getD i ⟨ConstraintType.eq, 0, []⟩).coefficients.getD s 0 :=
          le_of_not_lt hlt
        obtain ⟨final, hrl, hf1, hf2⟩ := ih (i + 1) bR best (by omega)
          (fun hb => ⟨(hnone hb).1, fun j hj => by
            rcases Nat.lt_succ_iff_lt_or_eq.mp hj with hj' | hj'
            · exact (hnone hb).2 j hj'
            · subst hj'
              rintro ⟨c, a, h1, h2, h3, h4⟩
              obtain ⟨hc', ha'⟩ := huniq h1 h2
              subst hc'
              rw [ha'] at h4
              rw [(hnone hb).1] at hble
              exact absurd h4 (not_lt.mpr hble)⟩)
          (fun r c hb => by
            obtain ⟨h1, h2, a, h3, h4, h5, h6, h7, h8⟩ := hsome r c hb
            refine ⟨by omega, h2, a, h3, h4, h5, h6,
              fun j cj aj hj hcj haj hposj => ?_, h8⟩
            rcases Nat.lt_succ_iff_lt_or_eq.mp hj with hj' | hj'
            · exact h7 j cj aj hj' hcj haj hposj
            · subst hj'
              obtain ⟨hc', ha'⟩ := huniq hcj haj
              subst hc'
              rw [ha']
              exact hble)
        refine ⟨final, hrl, fun hb j hj => hf1 hb j (by omega), fun r c hb => ?_⟩
        obtain ⟨h1, h2, a, h3, h4, h5, h6, h7⟩ := hf2 r c hb
        exact ⟨by omega, h2, a, h3, h4, h5,
          fun j cj aj hj hcj haj hposj => h6 j cj aj (by omega) hcj haj hposj, h7⟩

/-- C5 (amended): with the constraint list sized to `m` and column `s` present
in every row, the leaving row chosen by the ratio test is a row with strictly
positive coefficient in column `s` whose ratio `value / coefficient` is
strictly below `Number.MAX_SAFE_INTEGER`, it minimizes the ratio over all rows
with strictly positive coefficient, the first-encountered row wins ties, and
the "unbounded" sentinel is produced exactly when *no* row has a strictly
positive coefficient in column `s` with ratio strictly below
`Number.MAX_SAFE_INTEGER` (because `smallestRatio` starts at that value);
when `solveSimplexRecursive` selects entering column `s` and the sentinel
condition holds, it returns "unbounded". -/
theorem chooseLeavingRow_minimal (p : LinearProgram) (s : ℕ)
    (hm : p.constraints.length = p.m)
    (hs : ∀ c ∈ p.constraints, s < c.coefficients.length) :
    (chooseLeavingRow p s = Except.ok none ↔
      ∀ i, i < p.m → ¬ QualifyingRowBelow p.constraints s i) ∧
    (∀ r c, chooseLeavingRow p s = Except.ok (some (r, c)) →
      r < p.m ∧ p.constraints[r]? = some c ∧
      ∃ a, c.coefficients[s]? = some a ∧ 0 < a ∧ c.value / a < maxSafeInteger ∧
        (∀ i ci ai, i < p.m → p.constraints[i]? = some ci →
          ci.coefficients[s]? = some ai → 0 < ai → c.value / a ≤ ci.value / ai) ∧
        (∀ i ci ai, i < r → p.constraints[i]? = some ci →
          ci.coefficients[s]? = some ai → 0 < ai → c.value / a < ci.value / ai)) ∧
    (∀ fuel zeroVariables, p.isSimplexForm = true →
      p.coefficients.findIdx? (fun c => decide (0 < c)) = some s →
      chooseLeavingRow p s = Except.ok none →
      solveSimplexRecursive (fuel + 1) p zeroVariables =
        Except.ok (SimplexResult.unbounded, p)) := by
  obtain ⟨final, hrl, hf1, hf2⟩ := ratioLoop_spec p.constraints s hs p.m 0 maxSafeInteger none
    (by omega)
    (fun _ => ⟨rfl, fun j hj => absurd hj (Nat.not_lt_zero j)⟩)
    (fun r c hb => by cases hb)
  have hch : chooseLeavingRow p s = Except.ok final := hrl
  refine ⟨⟨fun h => ?_, fun h => ?_⟩, fun r c hrc => ?_, fun fuel z hsf hfi hnone => ?_⟩
  · rw [hch] at h
    have hfn : final = none := by
      cases final with
      | none => rfl
      | some rc => exact absurd h (by simp)
    intro i hi
    exact hf1 hfn i (by omega)
  · cases hfin : final with
    | none => rw [hfin] at hch; exact hch
    | some rc =>
      exfalso
      obtain ⟨h1, h2, a, h3, h4, h5, _, _⟩ := hf2 rc.1 rc.2 (by rw [hfin])
      exact h rc.1 (by omega) ⟨rc.2, a, h2, h3, h4, h5⟩
  · rw [hch] at hrc
    have hfin : final = some (r, c) := by
      cases final with
      | none => exact absurd hrc (by simp)
      | some rc =>
        simp only [Except.ok.injEq] at hrc
        rw [hrc]
    obtain ⟨h1, h2, a, h3, h4, h5, h6, h7⟩ := hf2 r c hfin
    exact ⟨by omega, h2, a, h3, h4, h5,
      fun i ci ai hi => h6 i ci ai (by omega), h7⟩
  · rw [solveSimplexRecursive, hsf]
    simp only [Bool.true_eq_false, if_false, hfi, hnone]

theorem chooseLeavingRow_minimal_witness :
    (chooseLeavingRow maxSafeRatioProgram 0 = Except.ok none ↔
      ∀ i, i < 1 → ¬ QualifyingRowBelow maxSafeRatioProgram.constraints 0 i) ∧
    (∀ r c, chooseLeavingRow maxSafeRatioProgram 0 = Except.ok (some (r, c)) →
      r < 1 ∧ maxSafeRatioProgram.constraints[r]? = some c ∧
      ∃ a, c.coefficients[0]? = some a ∧ 0 < a ∧ c.value / a < maxSafeInteger ∧
        (∀ i ci ai, i < 1 → maxSafeRatioProgram.constraints[i]? = some ci →
          ci.coefficients[0]? = some ai → 0 < ai → c.value / a ≤ ci.value / ai) ∧
        (∀ i ci ai, i < r → maxSafeRatioProgram.constraints[i]? = some ci →
          ci.coefficients[0]? = some ai → 0 < ai → c.value / a < ci.value / ai)) ∧
    (∀ fuel zeroVariables, maxSafeRatioProgram.isSimplexForm = true →
      maxSafeRatioProgram.coefficients.findIdx? (fun c => decide (0 < c)) = some 0 →
      chooseLeavingRow maxSafeRatioProgram 0 = Except.ok none →
      solveSimplexRecursive (fuel + 1) maxSafeRatioProgram zeroVariables =
        Except.ok (SimplexResult.unbounded, maxSafeRatioProgram)) :=
  chooseLeavingRow_minimal maxSafeRatioProgram 0 (by decide)
    (fun c hc => by
      have : c = ⟨ConstraintType.eq, maxSafeInteger, [1]⟩ := by
        simpa [maxSafeRatioProgram] using hc
      rw [this]
      decide)

/-- C5 counterexample: `maxSafeRatioProgram` has a constraint with strictly
positive coefficient `1` in the entering column `0`, yet
`solveSimplexRecursive` returns the "unbounded" sentinel, because the row's
ratio equals `Number.MAX_SAFE_INTEGER` and never beats the initial
`smallestRatio`; the claim's "exactly when no constraint has a strictly
positive coefficient" is therefore false as stated. -/
theorem solveSimplexRecursive_unbounded_despite_positive_column :
    solveSimplexRecursive 5 maxSafeRatioProgram [0] =
      Except.ok (SimplexResult.unbounded, maxSafeRatioProgram) ∧
    maxSafeRatioProgram.coefficients.findIdx? (fun c => decide (0 < c)) = some 0 ∧
    tableauEntry maxSafeRatioProgram 0 0 = some 1 ∧ (0 : ℚ) < 1 ∧
    QualifyingRow maxSafeRatioProgram.constraints 0 0 := by
  refine ⟨by decide, by decide, by decide, by decide, ⟨⟨ConstraintType.eq, maxSafeInteger, [1]⟩, 1, by decide, by decide, by decide⟩⟩


/-- C2 (code bug): the invariant `coefficients.length = n` — asserted by the
source's own field documentation ("Should always be of length n") — is broken
by a normally-returning `solveSimplex` call. On the reachable one-variable,
zero-constraint program, the phase-1 `reduce` in
`formatToIntermediateSimplex` replaces `coefficients` with its empty initial
accumulator, and `solveSimplex` returns `.ok` with `coefficients = []` while
`n = 1`. -/
theorem solveSimplex_breaks_length_invariant :
    addVariable (mkLinearProgram ObjectiveType.maximize) 1 [] RestrictionType.nonNegative =
      Except.ok singleVariableProgram ∧
    WellFormed singleVariableProgram ∧
    solveSimplex 20 singleVariableProgram =
      Except.ok (SimplexResult.solution [0], finalSingleVariableState) ∧
    finalSingleVariableState.coefficients.length = 0 ∧
    finalSingleVariableState.n = 1 ∧
    ¬ WellFormed finalSingleVariableState := by
  refine ⟨by decide, by decide, by decide, by decide, by decide, by decide⟩

/-- C3 (code bug): on the claim's own scenario — maximize `2x + 3y` subject
to `x + y ≤ 4`, `x, y ≥ 0`, built through the public API — `solveSimplex()`
does not return a zero-variable set at all: phase 1 throws
`LinearProgramSolutionError "No leaving variable found"`. With a single
constraint the phase-1 `reduce` returns the constraint's own coefficient
array, so the objective and the row share storage; adding the artificial
variable pushes `0` and `1` into that shared array, leaving both as
`[1, 1, 1, 0, 1]` with `n = 4`, and the artificial column (index 3) reads as
all-zero, so no leaving variable can be identified. -/
theorem solveSimplex_two_phase_scenario_throws :
    (do
      let p1 ← addVariable (mkLinearProgram ObjectiveType.maximize) 2 [] RestrictionType.nonNegative
      let p2 ← addVariable p1 3 [] RestrictionType.nonNegative
      addConstraint p2 ConstraintType.le 4 [1, 1]) = Except.ok examplePhase2Program ∧
    solveSimplex 20 examplePhase2Program =
      Except.error (LPErr.solutionError "No leaving variable found", corruptedPhase1State) ∧
    corruptedPhase1State.coefficients.length = 5 ∧
    corruptedPhase1State.n = 4 ∧
    tableauEntry corruptedPhase1State 0 3 = some 0 := by
  refine ⟨by decide, by decide, by decide, by decide, by decide⟩

theorem phase1_fold (n : ℕ) (hn : 0 < n) :
    ∀ (rest : List Constraint) (acc : List ℚ),
    acc.length = n → (∀ c ∈ rest, c.coefficients.length = n) →
    ∃ out, phase1Coefficients rest acc = Except.ok out ∧ out.length = n ∧
      ∀ j, j < n → out.getD j 0 =
        acc.getD j 0 + ((rest.map (fun c => |c.coefficients.getD j 0|)).sum) := by
  intro rest
  induction rest with
  | nil =>
    intro acc hacc _
    exact ⟨acc, rfl, hacc, fun j _ => by simp⟩
  | cons c rest ih =>
    intro acc hacc hlen
    have hc : c.coefficients.length = n := hlen c (by simp)
    have hstep : phase1Step acc c =
        Except.ok (List.zipWith (fun a b => a + |b|) acc c.coefficients) := by
      unfold phase1Step
      rw [if_neg (by omega), if_neg (by omega)]
    have hzlen : (List.zipWith (fun a b => a + |b|) acc c.coefficients).length = n := by
      rw [List.length_zipWith, hacc, hc]
      exact min_self n
    obtain ⟨out, hout, holen, hval⟩ := ih (List.zipWith (fun a b => a + |b|) acc c.coefficients)
      hzlen (fun c' hc' => hlen c' (by simp [hc']))
    refine ⟨out, ?_, holen, fun j hj => ?_⟩
    · unfold phase1Coefficients
      rw [hstep]
      exact hout
    · have hzj : (List.zipWith (fun a b => a + |b|) acc c.coefficients).getD j 0 =
          acc.getD j 0 + |c.coefficients.getD j 0| := by
        rw [List.getD_eq_getElem _ _ (by rw [hzlen]; exact hj), List.getElem_zipWith,
          List.getD_eq_getElem _ _ (by rw [hacc]; exact hj),
          List.getD_eq_getElem _ _ (by rw [hc]; exact hj)]
      rw [hval j hj, hzj]
      simp [add_assoc]

theorem addArtificialsLoop_preserves (mFixed : ℕ) :
    ∀ (k : ℕ) (p : LinearProgram), ∀ i : ℕ,
    p.m = mFixed → p.constraints.length = mFixed →
    ∃ q', addArtificialsLoop mFixed k p i = Except.ok q' ∧ q'.constant = p.constant ∧
      ∀ j, j < p.coefficients.length → q'.coefficients[j]? = p.coefficients[j]? := by
  intro k
  induction k with
  | zero =>
    intro p i _ _
    exact ⟨p, rfl, rfl, fun _ _ => rfl⟩
  | succ k ih =>
    intro p i hm hlen
    have hunit : ((List.range mFixed).map (fun j => if j = i then (1 : ℚ) else 0)).length
        = mFixed := by simp
    have hstep : addVariable p 0 ((List.range mFixed).map (fun j => if j = i then (1 : ℚ) else 0))
        RestrictionType.nonNegative = Except.ok
        { p with
          n := p.n + 1
          coefficients := p.coefficients ++ [0]
          restrictions := p.restrictions ++ [RestrictionType.nonNegative]
          constraints := List.zipWith pushCoefficient p.constraints
            ((List.range mFixed).map (fun j => if j = i then (1 : ℚ) else 0))
          isStandardForm := p.isStandardForm && true
          isSimplexForm := false } := by
      unfold addVariable
      rw [if_neg (by simp [hm])]
      rw [if_neg (by simp [hlen, hm])]
      simp only [Except.ok.injEq]
      have htake : p.constraints.take p.m = p.constraints := by
        rw [hm, ← hlen]
        exact List.take_length _
      have hdrop : p.constraints.drop p.m = [] := by
        rw [hm, ← hlen]
        exact List.drop_length _
      rw [htake, hdrop, List.append_nil]
      simp
    obtain ⟨q', hq', hconst, hcoef⟩ := ih
      { p with
        n := p.n + 1
        coefficients := p.coefficients ++ [0]
        restrictions := p.restrictions ++ [RestrictionType.nonNegative]
        constraints := List.zipWith pushCoefficient p.constraints
          ((List.range mFixed).map (fun j => if j = i then (1 : ℚ) else 0))
        isStandardForm := p.isStandardForm && true
        isSimplexForm := false } (i + 1) hm
      (by simp [List.length_zipWith, hlen])
    refine ⟨q', ?_, hconst, fun j hj => ?_⟩
    · simp only [addArtificialsLoop]
      rw [hstep]
      exact hq'
    · rw [hcoef j (by simp; omega)]
      show (p.coefficients ++ [0])[j]? = p.coefficients[j]?
      rw [List.getElem?_append, if_pos hj]

/-- C4 (amended): `formatToIntermediateSimplex`, after standardizing and
after negating every constraint with a negative value, sets the constant to
the negated sum of all constraint values — this half of the claim holds — but
sets, for every original column `j`, `coefficients[j]` to the *first*
constraint's coefficient at `j` (not its absolute value) plus the sum of the
absolute values over the remaining constraints: the initial accumulator of
the `reduce` is the first row itself, taken verbatim. -/
theorem formatToIntermediateSimplex_phase1_objective (p q : LinearProgram)
    (hns : p.isSimplexForm = false) (hstd : standardize p = Except.ok q)
    (hw : WellFormed q) (hm : 1 ≤ q.m) (hn : 0 < q.n) :
    ∃ r, formatToIntermediateSimplex p = Except.ok r ∧
      r.constant = -(((negateNegativeRows q.constraints).map Constraint.value).sum) ∧
      ∀ c0 rest, negateNegativeRows q.constraints = c0 :: rest →
        ∀ j, j < q.n → r.coefficients[j]? = some (phase1ColumnValue c0 rest j) := by
  obtain ⟨hc, hre, hcm, hrows⟩ := hw
  have hrowlens : ∀ c ∈ negateNegativeRows q.constraints, c.coefficients.length = q.n := by
    intro c hcmem
    rw [negateNegativeRows, List.mem_map] at hcmem
    obtain ⟨c', hc', hcc⟩ := hcmem
    by_cases hv : c'.value < 0
    · rw [← hcc, if_pos hv]
      simp [hrows c' hc']
    · rw [← hcc, if_neg hv]
      exact hrows c' hc'
  have hlen' : (negateNegativeRows q.constraints).length = q.m := by
    rw [negateNegativeRows, List.length_map, hcm]
  cases hcs : negateNegativeRows q.constraints with
  | nil =>
    exfalso
    rw [hcs] at hlen'
    simp at hlen'
    omega
  | cons c0 rest =>
    have hc0len : c0.coefficients.length = q.n := hrowlens c0 (by rw [hcs]; simp)
    have hrestlen : ∀ c ∈ rest, c.coefficients.length = q.n := fun c hcm' =>
      hrowlens c (by rw [hcs]; simp [hcm'])
    obtain ⟨out, hout, holen, hval⟩ := phase1_fold q.n hn rest c0.coefficients hc0len hrestlen
    have hph : phase1Coefficients (negateNegativeRows q.constraints) [] = Except.ok out := by
      rw [hcs]
      unfold phase1Coefficients
      have h0 : phase1Step [] c0 = Except.ok c0.coefficients := rfl
      rw [h0]
      exact hout
    have houtj : ∀ j, j < q.n → out[j]? = some (phase1ColumnValue c0 rest j) := by
      intro j hj
      rw [getElem?_some_getD out j 0 (by rw [holen]; exact hj), hval j hj]
      rfl
    unfold formatToIntermediateSimplex
    rw [hns]
    simp only [Bool.false_eq_true, if_false]
    rw [hstd]
    unfold formatCore
    simp only [hph]
    cases hrest : rest with
    | nil =>
      simp only [hcs, hrest]
      by_cases hm1 : q.m = 1
      · rw [if_pos hm1]
        refine ⟨_, rfl, by simp, fun c0' rest' hcs' j hj => ?_⟩
        simp only [List.cons.injEq] at hcs'
        obtain ⟨hc0', hrest'⟩ := hcs'
        subst hc0'
        subst hrest'
        have hgj : c0.coefficients[j]? = some (c0.coefficients.getD j 0) :=
          getElem?_some_getD _ _ _ (by rw [hc0len]; exact hj)
        show (c0.coefficients ++ [0, 1])[j]? = some (phase1ColumnValue c0 [] j)
        rw [List.getElem?_append, if_pos (by rw [hc0len]; exact hj), hgj]
        simp [phase1ColumnValue]
      · exfalso
        rw [hcs, hrest] at hlen'
        simp at hlen'
        exact hm1 hlen'.symm
    | cons c1 rest1 =>
      simp only [hcs, hrest]
      obtain ⟨q', hq', hconst, hcoef⟩ := addArtificialsLoop_preserves q.m q.m
        { q with
          constraints := c0 :: c1 :: rest1
          constant := -((List.map Constraint.value (c0 :: c1 :: rest1)).sum)
          coefficients := out } 0 rfl (by rw [← hrest, ← hcs]; simpa using hlen')
      refine ⟨{ q' with isSimplexForm := true }, ?_, ?_, fun c0' rest' hcs' j hj => ?_⟩
      · show formatFinish _ = _
        unfold formatFinish
        rw [hq']
      · show q'.constant = _
        rw [hconst]
      · simp only [List.cons.injEq] at hcs'
        obtain ⟨hc0', hrest'⟩ := hcs'
        subst hc0'
        subst hrest'
        show q'.coefficients[j]? = some (phase1ColumnValue c0 (c1 :: rest1) j)
        rw [hcoef j (by show j < out.length; rw [holen]; exact hj)]
        show out[j]? = _
        rw [← hrest]
        exact houtj j hj

theorem formatToIntermediateSimplex_phase1_objective_witness :
    ∃ r, formatToIntermediateSimplex negativeCoefficientProgram = Except.ok r ∧
      r.constant =
        -(((negateNegativeRows negativeCoefficientProgram.constraints).map Constraint.value).sum) ∧
      ∀ c0 rest, negateNegativeRows negativeCoefficientProgram.constraints = c0 :: rest →
        ∀ j, j < 1 → r.coefficients[j]? = some (phase1ColumnValue c0 rest j) :=
  formatToIntermediateSimplex_phase1_objective negativeCoefficientProgram
    negativeCoefficientProgram (by decide) (by decide) (by decide) (by decide) (by decide)

/-- C4 counterexample: on the standard-form program `maximize x` subject to
`−x = 1`, `x ≥ 0` (reachable through the public API plus `standardize`),
`formatToIntermediateSimplex` sets `coefficients[0] = −1` — the first
constraint's coefficient taken verbatim — while the claim's formula
`Σ over constraints of |a_i0|` (`phase1ColumnClaimed`) gives `1`. -/
theorem formatToIntermediateSimplex_first_row_not_abs :
    (do
      let p1 ← addVariable (mkLinearProgram ObjectiveType.maximize) 1 [] RestrictionType.nonNegative
      addConstraint p1 ConstraintType.eq 1 [-1]) =
      Except.ok { negativeCoefficientProgram with isStandardForm := false } ∧
    standardize { negativeCoefficientProgram with isStandardForm := false } =
      Except.ok negativeCoefficientProgram ∧
    formatToIntermediateSimplex negativeCoefficientProgram =
      Except.ok formattedNegativeCoefficientState ∧
    formattedNegativeCoefficientState.coefficients[0]? = some ((-1 : ℚ)) ∧
    phase1ColumnClaimed (negateNegativeRows negativeCoefficientProgram.constraints) 0 = 1 ∧
    ((-1 : ℚ)) ≠ (1 : ℚ) := by
  refine ⟨by decide, by decide, by decide, by decide, by decide, by decide⟩

end LinProg
